import Mathlib

/-!
# A shallow embedding of `src/lib/urlapi.c` (URL parse / get / set API)

C strings are modelled as `List Nat`: the list of bytes before the NUL
terminator (so a well-formed C string never contains the byte 0, and every
byte is below 256).  Machine `long` values are modelled as `Int` with the
explicit clamping `strtol` performs; `size_t` subtraction that may wrap is
modelled with explicit `% 2^64` arithmetic.

Heap allocation never fails in the model (out-of-memory paths of the C code
are therefore never taken), and the one place where the C code reads
uninitialized memory (the `hostname` scratch area, which `parseurl` never
writes for "file:" URLs) is modelled by an explicit `scratch0` parameter
holding the bytes that happen to be in that uninitialized buffer.

Undefined behaviour that the model can actually reach (dereferencing a NULL
handle pointer in `curl_url_set`, `aprintf("%s", NULL)` on a handle with no
path) is modelled as `Option.none`.

External collaborators whose code is not part of `src/`
(`Curl_builtin_scheme`, `Curl_parse_login_details`, `Curl_dedotdotify`) are
modelled from the spec; each carries a doc comment saying so.
-/

/-- Bytes of a C string (NUL terminator excluded). -/
abbrev CStr := List Nat

/-- Byte list of a Lean string literal (ASCII in all uses below). -/
def s2b (s : String) : CStr := s.data.map Char.toNat

/-- A well-formed C string: no embedded NUL, every byte below 256. -/
def validC (s : CStr) : Prop := ∀ c ∈ s, 0 < c ∧ c < 256

instance (s : CStr) : Decidable (validC s) := by
  unfold validC; infer_instance

/-- `strchr` followed by `*p++ = 0`: split a string at the first occurrence
of byte `c`, returning the part before and the part after (none if `c` does
not occur). -/
def strchr_split (c : Nat) : CStr → Option (CStr × CStr)
  | [] => none
  | b :: t =>
    if b = c then some ([], t)
    else (strchr_split c t).map (fun p => (b :: p.1, p.2))

/-- Index of the first occurrence of byte `c` (`strchr`, as an offset). -/
def firstIdxOf (c : Nat) : CStr → Option Nat
  | [] => none
  | b :: t => if b = c then some 0 else (firstIdxOf c t).map (· + 1)

/-- Index of the last occurrence of byte `c` (`strrchr`, as an offset). -/
def lastIdxOf (c : Nat) : CStr → Option Nat
  | [] => none
  | b :: t =>
    match lastIdxOf c t with
    | some i => some (i + 1)
    | none => if b = c then some 0 else none

/-- `strstr(url, "//")`: offset just past the first `"//"`, if any. -/
def idx_after_dslash : CStr → Option Nat
  | [] => none
  | [_] => none
  | a :: b :: t =>
    if a = 47 ∧ b = 47 then some 2
    else (idx_after_dslash (b :: t)).map (· + 1)

/-- ASCII lower-casing of one byte (as `Curl_raw_tolower`). -/
def lowerB (c : Nat) : Nat := if 65 ≤ c ∧ c ≤ 90 then c + 32 else c

/-- Case-insensitive equality of two byte strings (`strcasecompare`). -/
def caseiEq (a b : CStr) : Bool := a.map lowerB = b.map lowerB

/-- `checkprefix(p, s)`: case-insensitive prefix test used by the file:
branch of the parser. -/
def checkPfxCI (p s : CStr) : Bool := caseiEq p (s.take p.length)

/-! ## Error codes and parts (from the public header used by urlapi.c) -/

inductive CURLUcode where
  | CURLURLE_OK
  | CURLURLE_BAD_HANDLE
  | CURLURLE_BAD_PARTPOINTER
  | CURLURLE_MALFORMED_INPUT
  | CURLURLE_BAD_PORT_NUMBER
  | CURLURLE_UNSUPPORTED_SCHEME
  | CURLURLE_OUT_OF_MEMORY
  | CURLURLE_USER_NOT_ALLOWED
  | CURLURLE_UNKNOWN_PART
  | CURLURLE_NO_SCHEME
  | CURLURLE_NO_USER
  | CURLURLE_NO_PASSWORD
  | CURLURLE_NO_OPTIONS
  | CURLURLE_NO_HOST
  | CURLURLE_NO_PORT
  | CURLURLE_NO_PATH
  | CURLURLE_NO_QUERY
  | CURLURLE_NO_FRAGMENT
  deriving DecidableEq, Repr

instance {ε α : Type} [DecidableEq ε] [DecidableEq α] :
    DecidableEq (Except ε α)
  | .ok a, .ok b =>
    if h : a = b then isTrue (by rw [h]) else isFalse (by simp [h])
  | .ok _, .error _ => isFalse (by simp)
  | .error _, .ok _ => isFalse (by simp)
  | .error a, .error b =>
    if h : a = b then isTrue (by rw [h]) else isFalse (by simp [h])

inductive CURLUPart where
  | CURLUPART_URL
  | CURLUPART_SCHEME
  | CURLUPART_USER
  | CURLUPART_PASSWORD
  | CURLUPART_OPTIONS
  | CURLUPART_HOST
  | CURLUPART_PORT
  | CURLUPART_PATH
  | CURLUPART_QUERY
  | CURLUPART_FRAGMENT
  deriving DecidableEq, Repr

/-- The option bits of the API, as named boolean flags. -/
structure Flags where
  CURLURL_DEFAULT_PORT : Bool := false
  CURLURL_NO_DEFAULT_PORT : Bool := false
  CURLURL_DEFAULT_SCHEME : Bool := false
  CURLURL_NON_SUPPORT_SCHEME : Bool := false
  CURLURL_PATH_AS_IS : Bool := false
  CURLURL_DISALLOW_USER : Bool := false
  CURLURL_VERIFY_ONLY : Bool := false
  deriving DecidableEq, Repr

/-- No options set (a plain `0` flags argument). -/
def flags0 : Flags := {}

/-- `struct Curl_URL`: nine optional owned strings plus the numeric port.
The `scratch` pointer is call-local to `parseurl` (freed and NULL on every
handle a caller can observe), so it is not part of the modelled state. -/
structure Curl_URL where
  scheme : Option CStr := none
  user : Option CStr := none
  password : Option CStr := none
  options : Option CStr := none
  host : Option CStr := none
  port : Option CStr := none
  path : Option CStr := none
  query : Option CStr := none
  fragment : Option CStr := none
  portnum : Nat := 0
  deriving DecidableEq, Repr

/-- A fresh `calloc`ed handle. -/
def emptyU : Curl_URL := {}

/-! ## The percent-encoding normalizer -/

def ISCNTRL (c : Nat) : Bool := c < 32 || c = 127
def ISSPACE (c : Nat) : Bool := c = 32 || (9 ≤ c && c ≤ 13)
def ISGRAPH (c : Nat) : Bool := 33 ≤ c && c ≤ 126

/-- A byte must be escaped iff it is not a control, space or graphic byte
(for bytes below 256: exactly the bytes `128…255`). -/
def urlchar_needs_escaping (c : Nat) : Bool :=
  !(ISCNTRL c || ISSPACE c || ISGRAPH c)

/-- Lower-case hex digit of a value below 16. -/
def hexdig (n : Nat) : Nat := if n < 10 then 48 + n else 87 + n

/-- `snprintf(optr, 4, "%%%02x", c)`: a percent escape (3 bytes). -/
def escByte (c : Nat) : CStr := [37, hexdig (c / 16 % 16), hexdig (c % 16)]

/-- `find_host_sep`: offset of the separator ending the host part — the
first `/` or `?` at or after the first `"//"` (or at or after the string
start when there is no `"//"`), or the string length if neither occurs. -/
def find_host_sep (url : CStr) : Nat :=
  let sep0 := (idx_after_dslash url).getD 0
  let rest := url.drop sep0
  let sepi := match firstIdxOf 47 rest with
    | some i => sep0 + i
    | none => url.length
  let qi := match firstIdxOf 63 rest with
    | some i => sep0 + i
    | none => url.length
  min sepi qi

/-- Loop body of `Curl_strlen_url`: `i` is the offset of the head of the
remaining input inside the whole string, `hs` the host separator offset,
`left` the "still left of the first ?" flag. -/
def strlen_go (hs : Nat) : Nat → Bool → CStr → Nat
  | _, _, [] => 0
  | i, left, c :: t =>
    if i < hs then 1 + strlen_go hs (i + 1) left t
    else if c = 32 then (if left then 3 else 1) + strlen_go hs (i + 1) left t
    else
      (if urlchar_needs_escaping c then 3 else 1) +
        strlen_go hs (i + 1) (if c = 63 then false else left) t

/-- `Curl_strlen_url`. -/
def Curl_strlen_url (url : CStr) (relative : Bool) : Nat :=
  strlen_go (if relative then 0 else find_host_sep url) 0 true url

/-- Loop body of `Curl_strcpy_url` (same structure as `strlen_go`). -/
def strcpy_go (hs : Nat) : Nat → Bool → CStr → CStr
  | _, _, [] => []
  | i, left, c :: t =>
    if i < hs then c :: strcpy_go hs (i + 1) left t
    else if c = 32 then
      (if left then [37, 50, 48] else [43]) ++ strcpy_go hs (i + 1) left t
    else
      (if urlchar_needs_escaping c then escByte c else [c]) ++
        strcpy_go hs (i + 1) (if c = 63 then false else left) t

/-- `Curl_strcpy_url` (returns the written output buffer). -/
def Curl_strcpy_url (url : CStr) (relative : Bool) : CStr :=
  strcpy_go (if relative then 0 else find_host_sep url) 0 true url

/-! ## `Curl_is_absolute_url` and `Curl_concat_url` -/

/-- `sscanf(url, "%15[^?&/:]://%c", prot, &letter) == 2`. -/
def Curl_is_absolute_url (url : CStr) : Bool :=
  let run := (url.takeWhile
    (fun c => !(c = 63 || c = 38 || c = 47 || c = 58))).take 15
  !run.isEmpty &&
    (match url.drop run.length with
     | 58 :: 47 :: 47 :: _ :: _ => true
     | _ => false)

/-- Strip leading `"../"` groups, counting them (`while` loop of
`Curl_concat_url`). -/
def countDotDot : CStr → Nat × CStr
  | 46 :: 46 :: 47 :: t =>
    let r := countDotDot t
    (r.1 + 1, r.2)
  | l => (0, l)

/-- `while(level--)` loop: cut one trailing `/segment` per level from the
part after the first slash; emptied entirely when no slash remains. -/
def climb : Nat → CStr → CStr
  | 0, s => s
  | n + 1, s =>
    match lastIdxOf 47 s with
    | some i => climb n (s.take i)
    | none => []

/-- Truncate at the first occurrence of byte `c` (no-op when absent). -/
def cutAtFirst (c : Nat) (l : CStr) : CStr :=
  match strchr_split c l with
  | some p => p.1
  | none => l

/-- Truncate at the last occurrence of byte `c` (no-op when absent). -/
def cutAtLast (c : Nat) (l : CStr) : CStr :=
  match lastIdxOf c l with
  | some i => l.take i
  | none => l

/-- Final assembly of `Curl_concat_url`: append a `/` separator unless the
new part brings its own leading structure, then escape-copy the new part. -/
def concat_finish (clone : CStr) (protsepEmpty : Bool) (useurl : CStr)
    (relative : Bool) : CStr :=
  clone ++
    (if useurl.headD 0 = 47 || protsepEmpty || useurl.headD 0 = 63
     then [] else [47]) ++
    Curl_strcpy_url useurl relative

/-- `Curl_concat_url`: join a relative reference onto an absolute base. -/
def Curl_concat_url (base relurl : CStr) : CStr :=
  let p := (idx_after_dslash base).getD 0
  let pre := base.take p
  let tail0 := base.drop p
  if relurl.headD 0 ≠ 47 then
    -- relative path (or pure query) reference
    let tail1 := cutAtFirst 63 tail0
    let tail2 := if relurl.headD 0 ≠ 63 then cutAtLast 47 tail1 else tail1
    let u1 := if relurl.headD 0 = 46 && relurl.getD 1 0 = 47
              then relurl.drop 2 else relurl
    let lr := countDotDot u1
    match firstIdxOf 47 tail2 with
    | some i =>
      let subtail := climb lr.1 (tail2.drop (i + 1))
      concat_finish (pre ++ tail2.take (i + 1) ++ subtail)
        subtail.isEmpty lr.2 true
    | none => concat_finish (pre ++ tail2) false lr.2 true
  else if relurl.getD 1 0 = 47 then
    -- "//host/...": keep only the protocol part of the base
    concat_finish pre true (relurl.drop 2) false
  else
    -- absolute path on the same authority
    let tailc :=
      match firstIdxOf 47 tail0, firstIdxOf 63 tail0 with
      | some s, some q => tail0.take (min s q)
      | some s, none => tail0.take s
      | none, some q => tail0.take q
      | none, none => tail0
    concat_finish (pre ++ tailc) tailc.isEmpty relurl true

/-! ## Spec-modelled collaborators (code not under src/) -/

/-- Modelled from the spec: the Scheme Directory collaborator
(`Curl_builtin_scheme` and `h->defport`, which live outside src/):
`lookup(name) -> {is_registered, default_port}`, case-insensitive. -/
def schemeDir : List (CStr × Nat) :=
  [(s2b "http", 80), (s2b "https", 443), (s2b "ftp", 21), (s2b "ftps", 990),
   (s2b "imap", 143), (s2b "imaps", 993), (s2b "pop3", 110), (s2b "smtp", 25),
   (s2b "ldap", 389), (s2b "telnet", 23)]

/-- Modelled from the spec: registered-scheme lookup; `some defport` when the
scheme is registered, `none` otherwise. -/
def Curl_builtin_scheme (s : CStr) : Option Nat :=
  (schemeDir.find? (fun p => caseiEq p.1 s)).map (·.2)

/-- Modelled from the spec: the Login Splitter collaborator
(`Curl_parse_login_details`, outside src/): tokenize `user[:password][;options]`
into its components.  Options are everything after the first `;`; the part
before it splits at its first `:` into user and password. -/
def Curl_parse_login_details (login : CStr) :
    Option CStr × Option CStr × Option CStr :=
  match strchr_split 59 login with
  | some (a, b) =>
    (match strchr_split 58 a with
     | some (us, pw) => (some us, some pw, some b)
     | none => (some a, none, some b))
  | none =>
    match strchr_split 58 login with
    | some (us, pw) => (some us, some pw, none)
    | none => (some login, none, none)

/-- Remove the last `/segment` from the output buffer (step 2C of RFC3986
remove_dot_segments). -/
def removeLastSeg (out : CStr) : CStr :=
  match lastIdxOf 47 out with
  | some i => out.take i
  | none => []

/-- Modelled from the spec: the Dot-Segment Normalizer collaborator
(`Curl_dedotdotify`, outside src/): RFC3986 section 5.2.4
remove_dot_segments, with `out` the output buffer and `inp` the input. -/
def rds_step : CStr → CStr → CStr × CStr
  | out, 46 :: 46 :: 47 :: t => (out, t)
  | out, 46 :: 47 :: t => (out, t)
  | out, 47 :: 46 :: 47 :: t => (out, 47 :: t)
  | out, [47, 46] => (out, [47])
  | out, 47 :: 46 :: 46 :: 47 :: t => (removeLastSeg out, 47 :: t)
  | out, [47, 46, 46] => (removeLastSeg out, [47])
  | out, [46] => (out, [])
  | out, [46, 46] => (out, [])
  | out, 47 :: t =>
    let seg := t.takeWhile (fun c => c ≠ 47)
    (out ++ 47 :: seg, t.drop seg.length)
  | out, c :: t =>
    let seg := t.takeWhile (fun c => c ≠ 47)
    (out ++ c :: seg, t.drop seg.length)
  | out, [] => (out, [])

def rds : Nat → CStr → CStr → CStr
  | 0, out, _ => out
  | fuel + 1, out, inp =>
    if inp.isEmpty then out
    else rds fuel (rds_step out inp).1 (rds_step out inp).2

/-- Modelled from the spec: `Curl_dedotdotify(path)` returns the
remove_dot_segments normalization of `path`.  Each loop iteration shortens
the input, so `p.length` units of fuel always suffice. -/
def Curl_dedotdotify (p : CStr) : CStr := rds p.length [] p

/-! ## Numeric helpers: strtol and snprintf("%ld") -/

def isDigitB (c : Nat) : Bool := 48 ≤ c && c ≤ 57

/-- `strtol(s, &end, 10)`: skip whitespace, optional sign, decimal digits;
result clamped into the `long` range; second component is the number of
bytes consumed (0 when no digits were found, matching `end == s`). -/
def strtol10 (s : CStr) : Int × Nat :=
  let ws := s.takeWhile ISSPACE
  let r1 := s.drop ws.length
  let sg : Int × CStr × Nat :=
    match r1 with
    | 43 :: t => (1, t, 1)
    | 45 :: t => (-1, t, 1)
    | _ => (1, r1, 0)
  let ds := sg.2.1.takeWhile isDigitB
  if ds.isEmpty then (0, 0)
  else
    let m : Nat := ds.foldl (fun a c => a * 10 + (c - 48)) 0
    let v : Int := sg.1 * m
    let v2 : Int :=
      if v > 2 ^ 63 - 1 then 2 ^ 63 - 1
      else if v < -(2 ^ 63) then -(2 ^ 63) else v
    (v2, ws.length + sg.2.2 + ds.length)

/-- Fueled digit writer; `fuel ≥ n` always suffices since `n / 10 < n`. -/
def natDigitsAux : Nat → Nat → CStr
  | 0, n => [48 + n]
  | fuel + 1, n =>
    if n < 10 then [48 + n]
    else natDigitsAux fuel (n / 10) ++ [48 + n % 10]

/-- `snprintf(buf, …, "%ld", n)` for a nonnegative value: decimal digits. -/
def natDigits (n : Nat) : CStr := natDigitsAux n n

/-! ## The parser -/

/-- Hex digits, `:` and `.`: the byte set of the bracketed-IPv6 scanf
match in `parse_port`. -/
def hexSet (c : Nat) : Bool :=
  isDigitB c || (97 ≤ c && c ≤ 102) || (65 ≤ c && c ≤ 70) || c = 58 || c = 46

/-- The `sscanf(hostname, "[%*45[0123456789abcdefABCDEF:.]%c%n", …)` match:
`some len` (bytes consumed, bracket and closing byte included) when the
match succeeded with `]` as the `%c` byte. -/
def bracketMatch (hostname : CStr) : Option Nat :=
  match hostname with
  | 91 :: rest =>
    let run := (rest.takeWhile hexSet).take 45
    if run.isEmpty then none
    else
      match rest.drop run.length with
      | c :: _ => if c = 93 then some (run.length + 2) else none
      | [] => none
  | _ => none

/-- Port-number scan of `parse_port` at colon offset `i`: on success returns
the truncated host name and the stored (port string, portnum) pair. -/
def portParseAt (hostname : CStr) (i : Nat) :
    Except CURLUcode (CStr × Option (CStr × Nat)) :=
  let tl := hostname.drop (i + 1)
  let r := strtol10 tl
  if r.1 ≤ 0 || r.1 > 65535 then .error .CURLURLE_BAD_PORT_NUMBER
  else if r.2 < tl.length then .error .CURLURLE_BAD_PORT_NUMBER
  else if r.2 ≠ 0 then
    .ok (hostname.take i, some (natDigits r.1.toNat, r.1.toNat))
  else .ok (hostname.take i, none)

/-- `parse_port`. -/
def parse_port (hostname : CStr) :
    Except CURLUcode (CStr × Option (CStr × Nat)) :=
  match bracketMatch hostname with
  | some len =>
    if hostname.getD len 0 ≠ 58 then .error .CURLURLE_MALFORMED_INPUT
    else portParseAt hostname len
  | none =>
    match firstIdxOf 58 hostname with
    | none => .ok (hostname, none)
    | some i => portParseAt hostname i

/-- Accepted bytes of an unbracketed host name (the `l` string of
`hostname_check`, with its duplicated `i`). -/
def hostLetters : CStr :=
  s2b "0123456789abcdefghijklimnopqrstuvwxyz-.ABCDEFGHIJKLIMNOPQRSTUVWXYZ"

/-- Accepted bytes inside a bracketed host name. -/
def bracketLetters : CStr := s2b "0123456789abcdefABCDEF::."

/-- `hostname_check`; the `hlen -= 2` of the bracket branch is a `size_t`
subtraction, so it wraps modulo `2^64` when `hlen < 2`. -/
def hostname_check (hostname : CStr) : CURLUcode :=
  let hlen := hostname.length
  if hostname.headD 0 = 91 then
    let hlen2 := (hlen + (2 ^ 64 - 2)) % 2 ^ 64
    let spn := ((hostname.drop 1).takeWhile (fun c => bracketLetters.contains c)).length
    if hlen2 ≠ spn then .CURLURLE_MALFORMED_INPUT else .CURLURLE_OK
  else
    let spn := (hostname.takeWhile (fun c => hostLetters.contains c)).length
    if hlen ≠ spn then .CURLURLE_MALFORMED_INPUT else .CURLURLE_OK

/-- `parse_hostname_login`: split the part before the first `@` off the
host name and store its login components. -/
def parse_hostname_login (u : Curl_URL) (hostname : CStr) (flags : Flags) :
    Except CURLUcode (Curl_URL × CStr) :=
  match strchr_split 64 hostname with
  | none => .ok (u, hostname)
  | some (login, rest) =>
    let lp := Curl_parse_login_details login
    if lp.1.isSome && flags.CURLURL_DISALLOW_USER then
      .error .CURLURLE_USER_NOT_ALLOWED
    else
      .ok ({u with
        user := if lp.1.isSome then lp.1 else u.user,
        password := if lp.2.1.isSome then lp.2.1 else u.password,
        options := if lp.2.2.isSome then lp.2.2 else u.options}, rest)

/-- Byte class `[^\n/:]` (negated). -/
def stop1 (c : Nat) : Bool := c = 10 || c = 47 || c = 58

/-- Byte class `[^\n/?#]` (negated). -/
def stop2 (c : Nat) : Bool := c = 10 || c = 47 || c = 63 || c = 35

/-- Result of `sscanf(url, "%15[^\n/:]:%3[/]%[^\n/?#]%[^\n]", …)`. -/
structure Scan4 where
  rc : Nat
  schemebuf : CStr
  hostname : CStr
  pathbuf : CStr
  deriving DecidableEq, Repr

def scan4 (url : CStr) : Scan4 :=
  let sr := (url.takeWhile (fun c => !stop1 c)).take 15
  if sr.isEmpty then ⟨0, [], [], []⟩
  else
    match url.drop sr.length with
    | 58 :: r2 =>
      let sl := (r2.takeWhile (fun c => c = 47)).take 3
      if sl.isEmpty then ⟨1, sr, [], []⟩
      else
        let r3 := r2.drop sl.length
        let hr := r3.takeWhile (fun c => !stop2 c)
        if hr.isEmpty then ⟨2, sr, [], []⟩
        else
          let pr := (r3.drop hr.length).takeWhile (fun c => c ≠ 10)
          if pr.isEmpty then ⟨3, sr, hr, []⟩ else ⟨4, sr, hr, pr⟩
    | _ => ⟨1, sr, [], []⟩

/-- Result of the fallback `sscanf(url, "%[^\n/?#]%[^\n]", …)`. -/
def scan2 (url : CStr) : Nat × CStr × CStr :=
  let hr := url.takeWhile (fun c => !stop2 c)
  if hr.isEmpty then (0, [], [])
  else
    let pr := (url.drop hr.length).takeWhile (fun c => c ≠ 10)
    (if pr.isEmpty then 1 else 2, hr, pr)

/-- The scheme-presence scan over the first 16 bytes. -/
def scan_scheme : Nat → CStr → Bool
  | 0, _ => false
  | _ + 1, [] => false
  | n + 1, c :: t =>
    if c = 47 then false else if c = 58 then true else scan_scheme n t

/-- `url_has_scheme && strncasecompare(url, "file:", 5)`. -/
def is_file_url (url : CStr) : Bool :=
  scan_scheme 16 url && checkPfxCI (s2b "file:") url

/-- `STARTS_WITH_URL_DRIVE_PREFIX` (reads at most up to the terminator). -/
def starts_with_url_drive_pfx (s : CStr) : Bool :=
  let c0 := s.headD 0
  let c1 := s.getD 1 0
  let c2 := s.getD 2 0
  ((97 ≤ c0 && c0 ≤ 122) || (65 ≤ c0 && c0 ≤ 90)) &&
    (c1 = 58 || c1 = 124) && (c2 = 47 || c2 = 92 || c2 = 0)

/-- The file:-scheme branch of `parseurl` on a non-Windows build: computes
the path buffer contents, or a malformed-input error. -/
def parse_file_path (url : CStr) : Except CURLUcode CStr :=
  let p0 := (url.drop 5).takeWhile (fun c => c ≠ 10)
  if p0.isEmpty then .error .CURLURLE_MALFORMED_INPUT
  else
    let step : Except CURLUcode CStr :=
      if p0.headD 0 = 47 && p0.getD 1 0 = 47 then
        let ptr := p0.drop 2
        if ptr.headD 0 ≠ 47 && !starts_with_url_drive_pfx ptr then
          if checkPfxCI (s2b "localhost/") ptr ||
             checkPfxCI (s2b "127.0.0.1/") ptr
          then .ok (ptr.drop 9)
          else .error .CURLURLE_MALFORMED_INPUT
        else .ok ptr
      else .ok p0
    match step with
    | .error e => .error e
    | .ok p1 =>
      if (p1.headD 0 = 47 && starts_with_url_drive_pfx (p1.drop 1)) ||
         starts_with_url_drive_pfx p1
      then .error .CURLURLE_MALFORMED_INPUT
      else .ok p1

/-- Query/fragment split: `query = strchr(path, c63)` and then
`fragment = strchr(query ? query : path, c35)` (the fragment search runs on
the post-query text). -/
def split_qf (path0 : CStr) : CStr × Option CStr × Option CStr :=
  match strchr_split 63 path0 with
  | some (p, q0) =>
    match strchr_split 35 q0 with
    | some (q, f) => (p, some q, some f)
    | none => (p, some q0, none)
  | none =>
    match strchr_split 35 path0 with
    | some (p, f) => (p, none, some f)
    | none => (path0, none, none)

/-- Path defaulting, slash insertion and dot-segment normalization: empty
paths become "/", a path without a leading slash gets one inserted (and,
because of the `else if`, is NOT normalized), otherwise the path is
replaced by its normalization unless keep-path-as-is is set. -/
def path_fixup (p1 : CStr) (flags : Flags) : CStr :=
  let path2 := if p1.isEmpty then [47] else p1
  if path2.headD 0 ≠ 47 then 47 :: path2
  else if !flags.CURLURL_PATH_AS_IS then
    let newp := Curl_dedotdotify path2
    if newp ≠ path2 then newp else path2
  else path2

/-- The host / port / portnum stores after `parse_port`. -/
def store_host_port (u2 : Curl_URL) (hn3 : CStr)
    (portinfo : Option (CStr × Nat)) : Curl_URL :=
  match portinfo with
  | some (ps, pn) => {u2 with port := some ps, portnum := pn, host := some hn3}
  | none => {u2 with host := some hn3}

/-- The query and fragment stores (`if(query && query[0])` …). -/
def store_qf (u3 : Curl_URL) (q f : Option CStr) : Curl_URL :=
  let u4 :=
    match q with
    | some q => if q.isEmpty then u3 else {u3 with query := some q}
    | none => u3
  match f with
  | some f => if f.isEmpty then u4 else {u4 with fragment := some f}
  | none => u4

/-- Common tail of `parseurl` after the path buffer and host-name buffer are
known: query/fragment split, path defaulting and normalization, login
extraction, port extraction, hostname validation, and the final stores. -/
def parse_tail (u0 : Curl_URL) (hostname path0 : CStr) (flags : Flags) :
    Except CURLUcode Curl_URL :=
  let qf := split_qf path0
  let u1 := {u0 with path := some (path_fixup qf.1 flags)}
  match parse_hostname_login u1 hostname flags with
  | .error e => .error e
  | .ok (u2, hn2) =>
    match parse_port hn2 with
    | .error e => .error e
    | .ok (hn3, portinfo) =>
      match hostname_check hn3 with
      | .CURLURLE_OK => .ok (store_qf (store_host_port u2 hn3 portinfo) qf.2.1 qf.2.2)
      | e => .error e

/-- Scheme validation and store of the generic branch. -/
def finish_scheme (u : Curl_URL) (schemep hostname path0 : CStr)
    (flags : Flags) : Except CURLUcode Curl_URL :=
  if (Curl_builtin_scheme schemep).isNone && !flags.CURLURL_NON_SUPPORT_SCHEME
  then .error .CURLURLE_UNSUPPORTED_SCHEME
  else parse_tail {u with scheme := some schemep} hostname path0 flags

/-- `parseurl`.  `scratch0` holds the bytes that happen to sit in the
uninitialized host-name half of the scratch buffer: the file: branch never
writes that buffer, yet the common tail reads it. -/
def parseurl (scratch0 : CStr) (url : CStr) (u : Curl_URL) (flags : Flags) :
    Except CURLUcode Curl_URL :=
  if url.headD 0 = 58 then .error .CURLURLE_MALFORMED_INPUT
  else if is_file_url url then
    match parse_file_path url with
    | .error e => .error e
    | .ok path0 => parse_tail u scratch0 path0 flags
  else
    let s4 := scan4 url
    if s4.rc = 2 then .error .CURLURLE_MALFORMED_INPUT
    else if s4.rc < 3 then
      if !flags.CURLURL_DEFAULT_SCHEME then .error .CURLURLE_MALFORMED_INPUT
      else
        let sc2 := scan2 url
        if sc2.1 < 1 then .error .CURLURLE_MALFORMED_INPUT
        else finish_scheme u (s2b "https") sc2.2.1 sc2.2.2 flags
    else finish_scheme u s4.schemebuf s4.hostname s4.pathbuf flags

/-! ## The accessor API -/

/-- `curl_url` (create): parse into a fresh handle; errors and the
verify-only option hand back no handle. -/
def curl_url (scratch0 : CStr) (URL : CStr) (flags : Flags) :
    CURLUcode × Option Curl_URL :=
  match parseurl scratch0 URL emptyU flags with
  | .error e => (e, none)
  | .ok u =>
    if flags.CURLURL_VERIFY_ONLY then (.CURLURLE_OK, none)
    else (.CURLURLE_OK, some u)

/-- Return a duplicate of a stored string or the part-specific error. -/
def dupOr (o : Option CStr) (e : CURLUcode) : Except CURLUcode CStr :=
  match o with
  | some v => .ok v
  | none => .error e

/-- The `aprintf` serialization of the composite URL part. -/
def join_url (scheme : CStr) (user password : Option CStr) (host : CStr)
    (port : Option CStr) (path : CStr) (query fragment : Option CStr) : CStr :=
  scheme ++ s2b "://" ++
  user.getD [] ++
  (match password with | some pw => 58 :: pw | none => []) ++
  (if user.isSome || password.isSome then [64] else []) ++
  host ++
  (match port with | some p => 58 :: p | none => []) ++
  path ++
  (match query with | some q => 63 :: q | none => []) ++
  (match fragment with | some f => 35 :: f | none => [])

/-- `curl_url_get`.  `none` models the undefined behaviour of
`aprintf("%s", NULL)` when the composite URL is requested from a handle
with no stored path. -/
def curl_url_get (u : Curl_URL) (what : CURLUPart) (flags : Flags) :
    Option (Except CURLUcode CStr) :=
  match what with
  | .CURLUPART_SCHEME => some (dupOr u.scheme .CURLURLE_NO_SCHEME)
  | .CURLUPART_USER => some (dupOr u.user .CURLURLE_NO_USER)
  | .CURLUPART_PASSWORD => some (dupOr u.password .CURLURLE_NO_PASSWORD)
  | .CURLUPART_OPTIONS => some (dupOr u.options .CURLURLE_NO_OPTIONS)
  | .CURLUPART_HOST => some (dupOr u.host .CURLURLE_NO_HOST)
  | .CURLUPART_PORT =>
    let ptr : Option CStr :=
      if u.port.isNone then
        if u.scheme.isSome && flags.CURLURL_DEFAULT_PORT then
          match Curl_builtin_scheme (u.scheme.getD []) with
          | some dp => some (natDigits dp)
          | none => none
        else none
      else if u.scheme.isSome then
        match Curl_builtin_scheme (u.scheme.getD []) with
        | some dp =>
          if dp = u.portnum && flags.CURLURL_NO_DEFAULT_PORT then none
          else u.port
        | none => u.port
      else u.port
    some (dupOr ptr .CURLURLE_NO_PORT)
  | .CURLUPART_PATH => some (dupOr u.path .CURLURLE_NO_PATH)
  | .CURLUPART_QUERY => some (dupOr u.query .CURLURLE_NO_QUERY)
  | .CURLUPART_FRAGMENT => some (dupOr u.fragment .CURLURLE_NO_FRAGMENT)
  | .CURLUPART_URL =>
    match u.host with
    | none => some (.error .CURLURLE_NO_HOST)
    | some host =>
      match (match u.scheme with
             | some s => Except.ok s
             | none =>
               if flags.CURLURL_DEFAULT_SCHEME then Except.ok (s2b "https")
               else Except.error CURLUcode.CURLURLE_NO_SCHEME : Except CURLUcode CStr) with
      | .error e => some (.error e)
      | .ok scheme =>
        let port : Option CStr :=
          if u.port.isNone then
            if flags.CURLURL_DEFAULT_PORT then
              match Curl_builtin_scheme scheme with
              | some dp => some (natDigits dp)
              | none => none
            else none
          else
            match Curl_builtin_scheme scheme with
            | some dp =>
              if dp = u.portnum && flags.CURLURL_NO_DEFAULT_PORT then none
              else u.port
            | none => u.port
        match u.path with
        | none => none
        | some path =>
          some (.ok (join_url scheme u.user u.password host port path
            u.query u.fragment))

/-- The scalar-store tail of `curl_url_set`: `strdup` the value, then the
buggy `if(!*newp)` check reports out-of-memory for an empty value before
anything is replaced; otherwise replace the field (and the port number when
`port` is nonzero). -/
def scalar_store (u : Curl_URL) (part : CStr)
    (upd : Curl_URL → Option CStr → Curl_URL) (port : Nat) :
    Option (CURLUcode × Curl_URL) :=
  if part.isEmpty then some (.CURLURLE_OUT_OF_MEMORY, u)
  else
    let u1 := upd u (some part)
    some (.CURLURLE_OK, if port ≠ 0 then {u1 with portnum := port} else u1)

/-- `curl_url_set`.  `none` models the undefined behaviour of
`copy_urlhandle(u, NULL)` after a verify-only parse and of a composite get
on a handle with no path. -/
def curl_url_set (scratch0 : CStr) (u : Curl_URL) (what : CURLUPart)
    (part : CStr) (flags : Flags) : Option (CURLUcode × Curl_URL) :=
  match what with
  | .CURLUPART_SCHEME =>
    if !flags.CURLURL_NON_SUPPORT_SCHEME && (Curl_builtin_scheme part).isNone
    then some (.CURLURLE_UNSUPPORTED_SCHEME, u)
    else scalar_store u part (fun v s => {v with scheme := s}) 0
  | .CURLUPART_USER => scalar_store u part (fun v s => {v with user := s}) 0
  | .CURLUPART_PASSWORD =>
    scalar_store u part (fun v s => {v with password := s}) 0
  | .CURLUPART_OPTIONS =>
    scalar_store u part (fun v s => {v with options := s}) 0
  | .CURLUPART_HOST => scalar_store u part (fun v s => {v with host := s}) 0
  | .CURLUPART_PORT =>
    let port := (strtol10 part).1
    if port ≤ 0 || port > 65535 then some (.CURLURLE_BAD_PORT_NUMBER, u)
    else scalar_store u part (fun v s => {v with port := s}) port.toNat
  | .CURLUPART_PATH => scalar_store u part (fun v s => {v with path := s}) 0
  | .CURLUPART_QUERY => scalar_store u part (fun v s => {v with query := s}) 0
  | .CURLUPART_FRAGMENT =>
    scalar_store u part (fun v s => {v with fragment := s}) 0
  | .CURLUPART_URL =>
    if Curl_is_absolute_url part then
      let r := curl_url scratch0 part flags
      if r.1 = .CURLURLE_OK then
        match r.2 with
        | some h2 => some (.CURLURLE_OK, h2)
        | none => none
      else some (r.1, u)
    else
      match curl_url_get u .CURLUPART_URL flags with
      | none => none
      | some (.error e) => some (e, u)
      | some (.ok oldurl) =>
        let r := curl_url scratch0 (Curl_concat_url oldurl part) flags
        if r.1 = .CURLURLE_OK then
          match r.2 with
          | some h2 => some (.CURLURLE_OK, h2)
          | none => none
        else some (r.1, u)

/-! ## Claim-side definitions for the escaping boundary (C8) -/

/-- Smallest index `i ≥ start` with byte `c` at `i`, if any. -/
def first_from (c start : Nat) (s : CStr) : Option Nat :=
  (firstIdxOf c (s.drop start)).map (· + start)

/-- Per the claim: the position right after the first `"//"`, or the string
start if there is none. -/
def c8_host_start (url : CStr) : Nat := (idx_after_dslash url).getD 0

/-- Per the claim: the host boundary — the earlier of the first `/` after
`"//"` (or from the string start if there is no `"//"`) and the first `?`
of the host-and-after region, or the end of the string if neither exists. -/
def c8_boundary (url : CStr) : Nat :=
  match first_from 47 (c8_host_start url) url,
        first_from 63 (c8_host_start url) url with
  | some a, some b => min a b
  | some a, none => a
  | none, some b => b
  | none, none => url.length

/-- Per the claim: the position of the first `?` (searched from the host
start for a full reference, from the string start for a relative one), or
the end of the string. -/
def c8_qpos (url : CStr) (relative : Bool) : Nat :=
  (first_from 63 (if relative then 0 else c8_host_start url) url).getD
    url.length

/-- Per the claim: the output for the byte `c` at offset `i`, given the
boundary `B` and the first-question-mark position `Q`: before `B` every
byte is copied unchanged; at or after `B` a space becomes `"%20"` before
`Q` and `"+"` at or after it, and other bytes are escaped exactly when the
shared classification requires it. -/
def c8_byte (B Q i c : Nat) : CStr :=
  if i < B then [c]
  else if c = 32 then (if i < Q then [37, 50, 48] else [43])
  else if urlchar_needs_escaping c then escByte c else [c]

/-- Positional recursion form of the claim-side copy. -/
def c8_go (B Q : Nat) : Nat → CStr → CStr
  | _, [] => []
  | i, c :: t => c8_byte B Q i c ++ c8_go B Q (i + 1) t

/-- The claim-side copy of a whole string. -/
def c8_spec_copy (url : CStr) (relative : Bool) : CStr :=
  c8_go (if relative then 0 else c8_boundary url) (c8_qpos url relative) 0 url

/-- The path buffer the parser hands to its common tail, before the empty
default, slash insertion and normalization: the pre-query/pre-fragment part
of the path text selected by the same branch dispatch `parseurl` uses. -/
def parsed_prepath (url : CStr) : CStr :=
  if is_file_url url then
    match parse_file_path url with
    | .ok p0 => (split_qf p0).1
    | .error _ => []
  else
    let s4 := scan4 url
    if s4.rc < 3 then (split_qf (scan2 url).2.2).1
    else (split_qf s4.pathbuf).1

/-- A concrete handle (the parse of "http://h/"), used by witnesses. -/
def hB : Curl_URL :=
  { scheme := some (s2b "http"), host := some (s2b "h"),
    path := some (s2b "/") }

/-! ## Claim-side definitions for the round trip (C1) -/

/-- Bytes a stored user name may contain so that the serialized URL
re-splits at the same places: no authority terminator, no `@`, no `:`
(password separator), no `;` (options separator). -/
def okUser (c : Nat) : Bool := !stop2 c && c != 64 && c != 58 && c != 59

/-- Bytes a stored password may contain: no authority terminator, no `@`,
no `;`. -/
def okPw (c : Nat) : Bool := !stop2 c && c != 64 && c != 59

/-- Bytes a stored host may contain: no authority terminator, no `@`, no
`:` (port separator). -/
def okHost (c : Nat) : Bool := !stop2 c && c != 64 && c != 58

/-- A handle built from its nine stored fields (options empty). -/
def mkU (sch : CStr) (user pw : Option CStr) (host : CStr)
    (port : Option CStr) (path : CStr) (query frag : Option CStr)
    (pn : Nat) : Curl_URL :=
  { scheme := some sch, user := user, password := pw, options := none,
    host := some host, port := port, path := some path, query := query,
    fragment := frag, portnum := pn }

/-- The stored-field invariant under which the serialized composite URL
re-parses to the very same handle: the scheme is a short builtin name, the
authority components contain no separator bytes, the port string is the
canonical decimal form of the port number, bracketed hosts re-match the
same bracket, the path is slash-headed and normalization-stable, and query
and fragment are nonempty and free of the bytes that would move the
splits. -/
def c1_inv (sch : CStr) (user pw : Option CStr) (host : CStr)
    (port : Option CStr) (path : CStr) (query frag : Option CStr)
    (pn : Nat) : Prop :=
  sch ≠ [] ∧ sch.length ≤ 15 ∧ sch.all (fun c => !stop1 c) = true ∧
  sch.map lowerB ≠ s2b "file" ∧ (Curl_builtin_scheme sch).isSome = true ∧
  (user.getD []).all okUser = true ∧ (pw.getD []).all okPw = true ∧
  (pw.isSome = true → user.isSome = true) ∧
  host.all okHost = true ∧ hostname_check host = .CURLURLE_OK ∧
  (user.isSome = true ∨ host ≠ [] ∨ port.isSome = true) ∧
  (port = none ∨ port = some (natDigits pn)) ∧
  (port.isSome = true → 1 ≤ pn ∧ pn ≤ 65535) ∧
  (port = none → pn = 0) ∧
  (port.isSome = true →
    (bracketMatch (host ++ 58 :: natDigits pn)).getD host.length =
      host.length) ∧
  (port = none → bracketMatch host = none) ∧
  path.headD 0 = 47 ∧ path.all (fun c => c != 10) = true ∧ 63 ∉ path ∧
  Curl_dedotdotify path = path ∧
  query ≠ some [] ∧ (query.getD []).all (fun c => c != 10 && c != 35) = true ∧
  frag ≠ some [] ∧ (frag.getD []).all (fun c => c != 10) = true ∧
  (query = none → 35 ∉ path ∧ 63 ∉ frag.getD [])

instance (sch : CStr) (user pw : Option CStr) (host : CStr)
    (port : Option CStr) (path : CStr) (query frag : Option CStr)
    (pn : Nat) :
    Decidable (c1_inv sch user pw host port path query frag pn) := by
  unfold c1_inv
  infer_instance

/-! ## Theorems -/

/-- C7: Relative resolution examples: `Curl_concat_url("http://a/b/c", "../d")`
returns `"http://a/d"`; `Curl_concat_url("http://a/b/c?q=1", "e")` returns
`"http://a/b/e"`; `Curl_concat_url("http://a/b/c", "//other/x")` returns
`"http://other/x"`. -/
theorem c7_relative_resolution :
    Curl_concat_url (s2b "http://a/b/c") (s2b "../d") = s2b "http://a/d" ∧
    Curl_concat_url (s2b "http://a/b/c?q=1") (s2b "e") = s2b "http://a/b/e" ∧
    Curl_concat_url (s2b "http://a/b/c") (s2b "//other/x") =
      s2b "http://other/x" := by
  decide

/-- C4: the claim (and the comment inside `parse_port`) says a host-ending
colon followed by no digits is silently discarded; but the `port <= 0` range
check runs before the `rest != &portptr[1]` no-digit check, so `strtol`
returning 0 for an empty digit string hits the range check first: parsing
`"http://host:/path"` and `"http://host:"` returns the bad-port-number
error instead of succeeding with no port. -/
theorem c4_colon_no_digits :
    curl_url [] (s2b "http://host:/path") flags0 =
      (.CURLURLE_BAD_PORT_NUMBER, none) ∧
    curl_url [] (s2b "http://host:") flags0 =
      (.CURLURLE_BAD_PORT_NUMBER, none) := by
  decide

/-- C5: `create("http://[::1]:8080/")` succeeds with HOST `"[::1]"` and PORT
`"8080"` as claimed, but `create("http://[::1]/")` fails with the
malformed-input error: after a bracketed IPv6 literal `parse_port` demands
that the very next byte be a colon, so a port is not optional (contradicting
the spec sentence "a port, if present, must immediately follow"). -/
theorem c5_ipv6_bracket :
    curl_url [] (s2b "http://[::1]:8080/") flags0 =
      (.CURLURLE_OK, some { scheme := some (s2b "http"),
                            host := some (s2b "[::1]"),
                            port := some (s2b "8080"),
                            path := some (s2b "/"), portnum := 8080 }) ∧
    curl_url [] (s2b "http://[::1]/") flags0 =
      (.CURLURLE_MALFORMED_INPUT, none) := by
  decide

/-- C1 counterexample: the claim fails in three ways.  (1) `"http://u;o@h/p"`
is accepted with an options component, but the composite-URL serialization
omits options, so re-parsing `get`'s output yields a handle whose options
field is `none` instead of `some "o"`.  (2) `"file:/p"` is accepted (with
empty uninitialized scratch bytes) but stores no scheme, so
`get(handle, URL)` with no options fails with the no-scheme error instead of
succeeding.  (3) `"http://h#/../x?q"` stores the unnormalized path
`"/#/../x"` (the inserted leading slash skips dot-segment removal), and
re-parsing the serialized URL normalizes it to `"/x"`, so the paths
differ. -/
theorem c1_counterexample :
    curl_url [] (s2b "http://u;o@h/p") flags0 =
      (.CURLURLE_OK, some { scheme := some (s2b "http"),
                            user := some (s2b "u"),
                            options := some (s2b "o"),
                            host := some (s2b "h"),
                            path := some (s2b "/p") }) ∧
    curl_url_get { scheme := some (s2b "http"), user := some (s2b "u"),
                   options := some (s2b "o"), host := some (s2b "h"),
                   path := some (s2b "/p") } .CURLUPART_URL flags0 =
      some (.ok (s2b "http://u@h/p")) ∧
    curl_url [] (s2b "http://u@h/p") flags0 =
      (.CURLURLE_OK, some { scheme := some (s2b "http"),
                            user := some (s2b "u"),
                            options := none,
                            host := some (s2b "h"),
                            path := some (s2b "/p") }) ∧
    (some (s2b "o") : Option CStr) ≠ none ∧
    curl_url [] (s2b "file:/p") flags0 =
      (.CURLURLE_OK, some { host := some [], path := some (s2b "/p") }) ∧
    curl_url_get { host := some [], path := some (s2b "/p") }
      .CURLUPART_URL flags0 = some (.error .CURLURLE_NO_SCHEME) ∧
    curl_url [] (s2b "http://h#/../x?q") flags0 =
      (.CURLURLE_OK, some { scheme := some (s2b "http"),
                            host := some (s2b "h"),
                            path := some (s2b "/#/../x"),
                            query := some (s2b "q") }) ∧
    curl_url_get { scheme := some (s2b "http"), host := some (s2b "h"),
                   path := some (s2b "/#/../x"), query := some (s2b "q") }
      .CURLUPART_URL flags0 = some (.ok (s2b "http://h/#/../x?q")) ∧
    curl_url [] (s2b "http://h/#/../x?q") flags0 =
      (.CURLURLE_OK, some { scheme := some (s2b "http"),
                            host := some (s2b "h"),
                            path := some (s2b "/x"),
                            query := some (s2b "q") }) ∧
    s2b "/#/../x" ≠ s2b "/x" := by
  decide

/-- C2 counterexample: with the verify-only flag among the options, a
successful absolute-URL composite set reaches
`copy_urlhandle(u, handle2)` with `handle2 == NULL` (because `curl_url`
discarded the parsed handle), dereferencing a null pointer: the call
neither fails leaving the handle untouched nor replaces its fields. -/
theorem c2_counterexample :
    curl_url_set [] { scheme := some (s2b "http"), host := some (s2b "h"),
                      path := some (s2b "/") }
      .CURLUPART_URL (s2b "http://x/") { CURLURL_VERIFY_ONLY := true } =
      none := by
  decide

/-- C6 counterexample: `"file:a/../b"` parses successfully (with empty
uninitialized scratch bytes) and stores the path `"/a/../b"`: the inserted
leading slash skips the dot-segment normalization (`else if`), so the
stored path differs from the RFC3986 normalization `"/b"`.  The same quirk
hits the non-file URL `"http://h#/../x?q"`, whose path text `"#/../x"` gets
a slash inserted and stays unnormalized. -/
theorem c6_counterexample :
    curl_url [] (s2b "file:a/../b") flags0 =
      (.CURLURLE_OK, some { host := some [], path := some (s2b "/a/../b") }) ∧
    Curl_dedotdotify (s2b "/a/../b") = s2b "/b" ∧
    s2b "/a/../b" ≠ s2b "/b" ∧
    curl_url [] (s2b "http://h#/../x?q") flags0 =
      (.CURLURLE_OK, some { scheme := some (s2b "http"),
                            host := some (s2b "h"),
                            path := some (s2b "/#/../x"),
                            query := some (s2b "q") }) ∧
    Curl_dedotdotify (s2b "/#/../x") = s2b "/x" := by
  decide

/-- C9 counterexample: `curl_url_set(h, PORT, "80abc", 0)` does not return
the bad-port-number error although the value has trailing garbage after the
digits: `strtol(part, NULL, 10)` is called with a NULL end pointer, so the
call succeeds, stores the full string `"80abc"` and sets portnum 80. -/
theorem c9_counterexample :
    curl_url_set [] { scheme := some (s2b "http"), host := some (s2b "h"),
                      path := some (s2b "/") }
      .CURLUPART_PORT (s2b "80abc") flags0 =
      some (.CURLURLE_OK, { scheme := some (s2b "http"),
                            host := some (s2b "h"),
                            path := some (s2b "/"),
                            port := some (s2b "80abc"), portnum := 80 }) ∧
    CURLUcode.CURLURLE_OK ≠ CURLUcode.CURLURLE_BAD_PORT_NUMBER := by
  decide

/-- C10 counterexample: setting the empty string does not return the
out-of-memory error for every scalar part: for PORT the value fails the
range check first (bad-port-number), and for SCHEME without the
accept-unregistered-scheme flag the registry check fails first
(unsupported-scheme).  The handle is unchanged in both cases. -/
theorem c10_counterexample :
    curl_url_set [] { scheme := some (s2b "http"), host := some (s2b "h"),
                      path := some (s2b "/") }
      .CURLUPART_PORT [] flags0 =
      some (.CURLURLE_BAD_PORT_NUMBER,
            { scheme := some (s2b "http"), host := some (s2b "h"),
              path := some (s2b "/") }) ∧
    curl_url_set [] { scheme := some (s2b "http"), host := some (s2b "h"),
                      path := some (s2b "/") }
      .CURLUPART_SCHEME [] flags0 =
      some (.CURLURLE_UNSUPPORTED_SCHEME,
            { scheme := some (s2b "http"), host := some (s2b "h"),
              path := some (s2b "/") }) ∧
    CURLUcode.CURLURLE_BAD_PORT_NUMBER ≠ CURLUcode.CURLURLE_OUT_OF_MEMORY := by
  decide

/-- The length and copy loops agree step by step. -/
theorem strlen_go_eq_length (t : CStr) :
    ∀ (hs i : Nat) (left : Bool),
      strlen_go hs i left t = (strcpy_go hs i left t).length := by
  induction t with
  | nil => intro hs i left; simp [strlen_go, strcpy_go]
  | cons c t ih =>
    intro hs i left
    simp only [strlen_go, strcpy_go]
    by_cases h1 : i < hs
    · simp [h1, ih]; omega
    · by_cases h2 : c = 32
      · cases left <;> simp [h1, h2, ih] <;> omega
      · by_cases h3 : urlchar_needs_escaping c
        · simp [h1, h2, h3, ih, escByte]; omega
        · simp [h1, h2, h3, ih]; omega

/-- C3: Escaping pair agreement: for every NUL-free input string and every
relative flag, `Curl_strlen_url` equals the length of the output written by
`Curl_strcpy_url`; copying `"http://a/b c?d e"` (non-relative) produces
`"http://a/b%20c?d+e"`. -/
theorem c3_escape_pair :
    (∀ (s : CStr) (r : Bool), validC s →
      Curl_strlen_url s r = (Curl_strcpy_url s r).length) ∧
    Curl_strcpy_url (s2b "http://a/b c?d e") false =
      s2b "http://a/b%20c?d+e" := by
  constructor
  · intro s r _
    unfold Curl_strlen_url Curl_strcpy_url
    exact strlen_go_eq_length s _ 0 true
  · decide

/-- C3 witness: the theorem applied at the concrete example string. -/
theorem c3_witness :
    Curl_strlen_url (s2b "http://a/b c?d e") false =
      (Curl_strcpy_url (s2b "http://a/b c?d e") false).length :=
  c3_escape_pair.1 (s2b "http://a/b c?d e") false (by decide)

/-- An empty string parses to no digits. -/
theorem strtol10_nil : strtol10 [] = (0, 0) := by decide

/-- C9 (amended): `curl_url_set(h, PORT, v, flags)` returns the bad-port
error exactly when the leading decimal number `strtol` reads from `v`
(after optional whitespace and sign, ignoring anything after the digits) is
absent, zero, negative or above 65535 — trailing garbage is NOT rejected
because the end pointer of `strtol` is not examined; on success the stored
port string is a duplicate of the whole value `v` (garbage included) and
the numeric port field is that leading decimal value. -/
theorem c9_amended (g : CStr) (h : Curl_URL) (v : CStr) (fl : Flags) :
    curl_url_set g h .CURLUPART_PORT v fl =
      (if (strtol10 v).1 ≤ 0 ∨ 65535 < (strtol10 v).1
       then some (.CURLURLE_BAD_PORT_NUMBER, h)
       else some (.CURLURLE_OK,
         {h with port := some v, portnum := (strtol10 v).1.toNat})) := by
  by_cases hc : (strtol10 v).1 ≤ 0 ∨ 65535 < (strtol10 v).1
  · rcases hc with hc | hc
    · simp [curl_url_set, hc]
    · simp [curl_url_set, hc]
  · push_neg at hc
    have hv : ¬v.isEmpty := by
      intro he
      have : v = [] := by
        cases v with
        | nil => rfl
        | cons a t => simp [List.isEmpty] at he
      rw [this] at hc
      rw [strtol10_nil] at hc
      omega
    have hpn : (strtol10 v).1.toNat ≠ 0 := by omega
    simp [curl_url_set, scalar_store, hv, hpn, Int.not_le.mpr hc.1,
      Int.not_lt.mpr hc.2]

/-- The empty string is not a registered scheme. -/
theorem builtin_nil : Curl_builtin_scheme [] = none := by decide

/-- C10 (amended): setting the empty string as the value of a scalar part
never stores anything and leaves the handle unchanged, but the returned
error is the out-of-memory error (from the buggy `if(!*newp)` check on the
first byte of the duplicate) only for the parts whose earlier validation
passes: PORT fails its range check first with the bad-port-number error,
and SCHEME without the accept-unregistered-scheme flag fails the registry
check first with the unsupported-scheme error. -/
theorem c10_amended (g : CStr) (h : Curl_URL) (fl : Flags) (p : CURLUPart)
    (hp : p ≠ .CURLUPART_URL) :
    curl_url_set g h p [] fl =
      some ((if p = .CURLUPART_PORT then CURLUcode.CURLURLE_BAD_PORT_NUMBER
             else if p = .CURLUPART_SCHEME ∧
                 fl.CURLURL_NON_SUPPORT_SCHEME = false
             then CURLUcode.CURLURLE_UNSUPPORTED_SCHEME
             else CURLUcode.CURLURLE_OUT_OF_MEMORY), h) := by
  cases p <;> simp_all [curl_url_set, scalar_store, strtol10_nil, builtin_nil]
  split <;> rfl

/-- C10 witness: the amended theorem at the HOST part of a concrete
handle. -/
theorem c10_witness :
    curl_url_set [] { scheme := some (s2b "http"), host := some (s2b "h"),
                      path := some (s2b "/") }
      .CURLUPART_HOST [] flags0 =
      some (.CURLURLE_OUT_OF_MEMORY,
            { scheme := some (s2b "http"), host := some (s2b "h"),
              path := some (s2b "/") }) := by
  simpa using c10_amended []
    ⟨some (s2b "http"), none, none, none, some (s2b "h"), none,
     some (s2b "/"), none, none, 0⟩ flags0 .CURLUPART_HOST (by decide)

/-- `hostname_check` returns only OK or the malformed-input error. -/
theorem hostname_check_cases (s : CStr) :
    hostname_check s = .CURLURLE_OK ∨
      hostname_check s = .CURLURLE_MALFORMED_INPUT := by
  simp only [hostname_check]
  split <;> split <;> simp

/-- `parse_hostname_login` fails only with the user-not-allowed error. -/
theorem parse_hostname_login_err (u : Curl_URL) (hn : CStr) (fl : Flags)
    (e : CURLUcode) (hp : parse_hostname_login u hn fl = .error e) :
    e = .CURLURLE_USER_NOT_ALLOWED := by
  simp only [parse_hostname_login] at hp
  split at hp
  · simp at hp
  · split at hp
    · simp at hp; exact hp.symm
    · simp at hp

/-- `portParseAt` fails only with the bad-port-number error. -/
theorem portParseAt_err (hn : CStr) (i : Nat) (e : CURLUcode)
    (hp : portParseAt hn i = .error e) : e = .CURLURLE_BAD_PORT_NUMBER := by
  simp only [portParseAt] at hp
  split at hp
  · simp at hp; exact hp.symm
  · split at hp
    · simp at hp; exact hp.symm
    · split at hp <;> simp at hp

/-- `parse_port` fails only with the bad-port or malformed errors. -/
theorem parse_port_err (hn : CStr) (e : CURLUcode)
    (hp : parse_port hn = .error e) :
    e = .CURLURLE_BAD_PORT_NUMBER ∨ e = .CURLURLE_MALFORMED_INPUT := by
  simp only [parse_port] at hp
  split at hp
  · split at hp
    · simp at hp; right; exact hp.symm
    · left; exact portParseAt_err _ _ _ hp
  · split at hp
    · simp at hp
    · left; exact portParseAt_err _ _ _ hp

/-- `parse_tail` never fails with the OK code. -/
theorem parse_tail_err (u : Curl_URL) (hn p0 : CStr) (fl : Flags)
    (e : CURLUcode) (hp : parse_tail u hn p0 fl = .error e) :
    e ≠ .CURLURLE_OK := by
  simp only [parse_tail] at hp
  split at hp
  · rename_i heq
    simp only [Except.error.injEq] at hp
    subst hp
    have := parse_hostname_login_err _ _ _ _ heq
    simp [this]
  · split at hp
    · rename_i heq
      simp only [Except.error.injEq] at hp
      subst hp
      rcases parse_port_err _ _ heq with h | h <;> simp [h]
    · split at hp
      · simp at hp
      · rename_i hck _
        simp only [Except.error.injEq] at hp
        subst hp
        rcases hostname_check_cases hn with h | h
        · simp_all
        · simp_all

/-- `parse_file_path` fails only with the malformed-input error. -/
theorem parse_file_path_err (url : CStr) (e : CURLUcode)
    (hp : parse_file_path url = .error e) : e = .CURLURLE_MALFORMED_INPUT := by
  simp only [parse_file_path] at hp
  split at hp
  · simp at hp; exact hp.symm
  · split at hp
    · rename_i heq
      simp only [Except.error.injEq] at hp
      subst hp
      split at heq
      · split at heq
        · split at heq
          · simp at heq
          · simp at heq; exact heq.symm
        · simp at heq
      · simp at heq
    · split at hp
      · simp at hp; exact hp.symm
      · simp at hp

/-- `parseurl` never fails with the OK code. -/
theorem parseurl_ne_errok (g url : CStr) (u : Curl_URL) (fl : Flags) :
    parseurl g url u fl ≠ .error .CURLURLE_OK := by
  simp only [parseurl]
  split
  · simp
  · split
    · split
      · rename_i heq
        intro hc
        simp only [Except.error.injEq] at hc
        exact absurd (parse_file_path_err _ _ heq) (by rw [hc]; simp)
      · intro hc
        exact parse_tail_err _ _ _ _ _ hc rfl
    · split
      · simp
      · split
        · split
          · simp
          · split
            · simp
            · simp only [finish_scheme]
              split
              · simp
              · intro hc
                exact parse_tail_err _ _ _ _ _ hc rfl
        · simp only [finish_scheme]
          split
          · simp
          · intro hc
            exact parse_tail_err _ _ _ _ _ hc rfl

/-- Without the verify-only flag, `curl_url` never pairs the OK code with a
missing handle. -/
theorem curl_url_not_ok_none (g s : CStr) (fl : Flags)
    (hvo : fl.CURLURL_VERIFY_ONLY = false) :
    curl_url g s fl ≠ (.CURLURLE_OK, none) := by
  simp only [curl_url]
  cases hpu : parseurl g s emptyU fl with
  | error e =>
    intro hc
    simp only [Prod.mk.injEq] at hc
    exact parseurl_ne_errok g s emptyU fl (hc.1 ▸ hpu)
  | ok u => simp [hvo]

/-- A composite-URL get on a handle with a stored path never hits the
`aprintf("%s", NULL)` undefined behaviour. -/
theorem curl_url_get_url_some (u : Curl_URL) (fl : Flags)
    (hpath : u.path.isSome = true) :
    curl_url_get u .CURLUPART_URL fl ≠ none := by
  simp only [curl_url_get]
  cases u.host with
  | none => simp
  | some host =>
    simp only
    split
    · simp
    · cases hup : u.path with
      | none => rw [hup] at hpath; simp at hpath
      | some p => simp

/-- A composite-URL get never fails with the OK code. -/
theorem curl_url_get_url_err (u : Curl_URL) (fl : Flags) (e : CURLUcode)
    (hg : curl_url_get u .CURLUPART_URL fl = some (.error e)) :
    e ≠ .CURLURLE_OK := by
  intro hc
  subst hc
  simp only [curl_url_get] at hg
  cases hh : u.host with
  | none => rw [hh] at hg; simp at hg
  | some host =>
    rw [hh] at hg
    simp only at hg
    split at hg
    · rename_i e2 heqs
      simp only [Option.some.injEq, Except.error.injEq] at hg
      subst hg
      split at heqs
      · simp at heqs
      · split at heqs
        · simp at heqs
        · simp at heqs
    · split at hg <;> simp at hg

/-- C2 (amended): provided the verify-only flag is not among the options
(with it, a successful parse makes `curl_url_set` copy from a NULL handle —
undefined behaviour) and the handle has a stored path, a composite URL set
either fails leaving every field of the handle exactly as it was, or
succeeds replacing the handle wholesale by the handle freshly parsed from
the value (when the value looks absolute) or from the resolution of the
value against the handle's serialized URL (otherwise). -/
theorem c2_amended (g : CStr) (h : Curl_URL) (v : CStr) (fl : Flags)
    (hpath : h.path.isSome = true) (hvo : fl.CURLURL_VERIFY_ONLY = false) :
    ∃ code h2, curl_url_set g h .CURLUPART_URL v fl = some (code, h2) ∧
      (code ≠ .CURLURLE_OK → h2 = h) ∧
      (code = .CURLURLE_OK →
        ((Curl_is_absolute_url v = true →
            curl_url g v fl = (.CURLURLE_OK, some h2)) ∧
         (Curl_is_absolute_url v = false →
            ∃ old, curl_url_get h .CURLUPART_URL fl = some (.ok old) ∧
              curl_url g (Curl_concat_url old v) fl =
                (.CURLURLE_OK, some h2)))) := by
  simp only [curl_url_set]
  by_cases habs : Curl_is_absolute_url v = true
  · rcases hcu : curl_url g v fl with ⟨code, oh⟩
    by_cases hok : code = .CURLURLE_OK
    · subst hok
      cases oh with
      | none => exact absurd hcu (curl_url_not_ok_none g v fl hvo)
      | some h2 =>
        refine ⟨.CURLURLE_OK, h2, ?_, ?_, ?_⟩
        · simp [habs, hcu]
        · simp
        · intro _
          refine ⟨fun _ => rfl, fun hcontra => ?_⟩
          rw [habs] at hcontra; simp at hcontra
    · refine ⟨code, h, ?_, fun _ => rfl, fun hc => absurd hc hok⟩
      simp [habs, hcu, hok]
  · simp only [Bool.not_eq_true] at habs
    cases hget : curl_url_get h .CURLUPART_URL fl with
    | none => exact absurd hget (curl_url_get_url_some h fl hpath)
    | some r =>
      cases r with
      | error e =>
        refine ⟨e, h, ?_, fun _ => rfl,
          fun hc => absurd hc (curl_url_get_url_err h fl e hget)⟩
        simp [habs, hget]
      | ok oldurl =>
        rcases hcu : curl_url g (Curl_concat_url oldurl v) fl with ⟨code, oh⟩
        by_cases hok : code = .CURLURLE_OK
        · subst hok
          cases oh with
          | none => exact absurd hcu (curl_url_not_ok_none g _ fl hvo)
          | some h2 =>
            refine ⟨.CURLURLE_OK, h2, ?_, ?_, ?_⟩
            · simp [habs, hget, hcu]
            · simp
            · intro _
              refine ⟨fun hcontra => ?_, fun _ => ⟨oldurl, rfl, hcu⟩⟩
              rw [habs] at hcontra; simp at hcontra
        · refine ⟨code, h, ?_, fun _ => rfl, fun hc => absurd hc hok⟩
          simp [habs, hget, hcu, hok]

/-- C2 witness: the amended theorem at a concrete handle, value and flag
set. -/
theorem c2_witness :
    ∃ code h2,
      curl_url_set [] hB .CURLUPART_URL (s2b "http://x/y") flags0 =
        some (code, h2) ∧
      (code ≠ .CURLURLE_OK → h2 = hB) ∧
      (code = .CURLURLE_OK →
        ((Curl_is_absolute_url (s2b "http://x/y") = true →
            curl_url [] (s2b "http://x/y") flags0 = (.CURLURLE_OK, some h2)) ∧
         (Curl_is_absolute_url (s2b "http://x/y") = false →
            ∃ old, curl_url_get hB .CURLUPART_URL flags0 = some (.ok old) ∧
              curl_url [] (Curl_concat_url old (s2b "http://x/y")) flags0 =
                (.CURLURLE_OK, some h2)))) :=
  c2_amended [] hB (s2b "http://x/y") flags0 (by decide) (by decide)

/-- Helper: `getD` through `drop`. -/
theorem getD_drop (l : CStr) (n j : Nat) :
    (l.drop n).getD j 0 = l.getD (n + j) 0 := by
  induction l generalizing n with
  | nil => simp
  | cons c t ih =>
    cases n with
    | zero => simp
    | succ n =>
      rw [List.drop_succ_cons, show n + 1 + j = (n + j) + 1 from by omega,
        List.getD_cons_succ]
      exact ih n

/-- Helper: a nonempty drop pins the byte at that offset. -/
theorem getD_of_drop_cons (l : CStr) (i c : Nat) (t : CStr)
    (h : l.drop i = c :: t) : l.getD i 0 = c := by
  have := getD_drop l i 0
  rw [h] at this
  simpa using this.symm

/-- Helper: dropping one more. -/
theorem drop_succ_of_drop_cons (l : CStr) (i c : Nat) (t : CStr)
    (h : l.drop i = c :: t) : l.drop (i + 1) = t := by
  have : l.drop (i + 1) = (l.drop i).drop 1 := by
    rw [List.drop_drop]
  rw [this, h]
  simp

/-- Helper: a nonempty drop bounds the offset. -/
theorem lt_length_of_drop_cons (l : CStr) (i c : Nat) (t : CStr)
    (h : l.drop i = c :: t) : i < l.length := by
  by_contra hc
  push_neg at hc
  rw [List.drop_eq_nil_of_le hc] at h
  simp at h

/-- `firstIdxOf` finds the byte, within bounds, and is minimal. -/
theorem firstIdxOf_some (c : Nat) (l : CStr) (i : Nat)
    (h : firstIdxOf c l = some i) :
    i < l.length ∧ l.getD i 0 = c ∧ ∀ j, j < i → l.getD j 0 ≠ c := by
  induction l generalizing i with
  | nil => simp [firstIdxOf] at h
  | cons b t ih =>
    simp only [firstIdxOf] at h
    split at h
    · rename_i hb
      simp only [Option.some.injEq] at h
      subst h
      exact ⟨by simp, by rw [List.getD_cons_zero]; exact hb, by omega⟩
    · rename_i hb
      cases hf : firstIdxOf c t with
      | none => rw [hf] at h; simp at h
      | some k =>
        rw [hf] at h
        simp only [Option.map_some', Option.some.injEq] at h
        subst h
        obtain ⟨h1, h2, h3⟩ := ih k hf
        refine ⟨by simpa using h1, by rw [List.getD_cons_succ]; exact h2, ?_⟩
        intro j hj
        cases j with
        | zero => rw [List.getD_cons_zero]; exact hb
        | succ j =>
          rw [List.getD_cons_succ]
          exact h3 j (by omega)

/-- When `firstIdxOf` fails the byte does not occur. -/
theorem firstIdxOf_none (c : Nat) (l : CStr)
    (h : firstIdxOf c l = none) : ∀ j, j < l.length → l.getD j 0 ≠ c := by
  induction l with
  | nil => simp
  | cons b t ih =>
    simp only [firstIdxOf] at h
    split at h
    · simp at h
    · rename_i hb
      cases hf : firstIdxOf c t with
      | some k => rw [hf] at h; simp at h
      | none =>
        intro j hj
        cases j with
        | zero => rw [List.getD_cons_zero]; exact hb
        | succ j =>
          rw [List.getD_cons_succ]
          exact ih hf j (by simp at hj; omega)

/-- `idx_after_dslash` yields an offset within the string. -/
theorem idx_after_dslash_le (l : CStr) (i : Nat)
    (h : idx_after_dslash l = some i) : i ≤ l.length := by
  induction l generalizing i with
  | nil => simp [idx_after_dslash] at h
  | cons a t ih =>
    cases t with
    | nil => simp [idx_after_dslash] at h
    | cons b t2 =>
      simp only [idx_after_dslash] at h
      split at h
      · simp only [Option.some.injEq] at h
        subst h
        simp
      · cases hf : idx_after_dslash (b :: t2) with
        | none => rw [hf] at h; simp at h
        | some k =>
          rw [hf] at h
          simp only [Option.map_some', Option.some.injEq] at h
          subst h
          have hk := ih k hf
          simp only [List.length_cons] at hk ⊢
          omega

/-- `find_host_sep` computes exactly the boundary described by the claim. -/
theorem find_host_sep_eq_boundary (url : CStr) :
    find_host_sep url = c8_boundary url := by
  simp only [find_host_sep, c8_boundary, c8_host_start, first_from]
  have hs0 : (idx_after_dslash url).getD 0 ≤ url.length := by
    cases hd : idx_after_dslash url with
    | none => simp
    | some i => simpa using idx_after_dslash_le url i hd
  cases h47 : firstIdxOf 47 (url.drop ((idx_after_dslash url).getD 0)) with
  | none =>
    cases h63 : firstIdxOf 63 (url.drop ((idx_after_dslash url).getD 0)) with
    | none => simp
    | some b =>
      have hb := (firstIdxOf_some _ _ _ h63).1
      rw [List.length_drop] at hb
      simp only [Option.map_some', Option.map_none']
      have hle : (idx_after_dslash url).getD 0 + b ≤ url.length := by omega
      rw [Nat.min_eq_right hle]
      omega
  | some a =>
    have ha := (firstIdxOf_some _ _ _ h47).1
    rw [List.length_drop] at ha
    cases h63 : firstIdxOf 63 (url.drop ((idx_after_dslash url).getD 0)) with
    | none =>
      simp only [Option.map_some', Option.map_none']
      have hle : (idx_after_dslash url).getD 0 + a ≤ url.length := by omega
      rw [Nat.min_eq_left hle]
      omega
    | some b =>
      simp only [Option.map_some', Option.map_none']
      rw [Nat.add_comm ((idx_after_dslash url).getD 0) a,
        Nat.add_comm ((idx_after_dslash url).getD 0) b]

/-- The copy loop computes the claim-side per-byte output, given that `Q` is
the position of the first question mark at or after `hs` (or the length). -/
theorem strcpy_go_spec (url : CStr) (hs Q : Nat) (hhsQ : hs ≤ Q)
    (hno : ∀ j, hs ≤ j → j < Q → url.getD j 0 ≠ 63)
    (hat : Q < url.length → url.getD Q 0 = 63) :
    ∀ (t : CStr) (i : Nat) (left : Bool), t = url.drop i →
      (left = true ↔ i ≤ Q) →
      strcpy_go hs i left t = c8_go hs Q i t := by
  intro t
  induction t with
  | nil => intro i left _ _; simp [strcpy_go, c8_go]
  | cons c t ih =>
    intro i left hdrop hinv
    have hc : url.getD i 0 = c := getD_of_drop_cons url i c t hdrop.symm
    have hlen : i < url.length := lt_length_of_drop_cons url i c t hdrop.symm
    have htail : url.drop (i + 1) = t := drop_succ_of_drop_cons url i c t hdrop.symm
    simp only [strcpy_go, c8_go, c8_byte]
    by_cases h1 : i < hs
    · have hnext : left = true ↔ i + 1 ≤ Q :=
        ⟨fun _ => by omega, fun _ => hinv.mpr (by omega)⟩
      simp only [if_pos h1, ih (i + 1) left htail.symm hnext]
      simp
    · by_cases h2 : c = 32
      · have hiQ : i ≠ Q := by
          intro he
          have h63 := hat (he ▸ hlen)
          rw [← he, hc] at h63
          omega
        have hnext : left = true ↔ i + 1 ≤ Q := by
          constructor
          · intro hl; have := hinv.mp hl; omega
          · intro hsucc; exact hinv.mpr (by omega)
        simp only [if_neg h1, if_pos h2, ih (i + 1) left htail.symm hnext]
        cases hl : left with
        | true =>
          have hlt : i < Q := lt_of_le_of_ne (hinv.mp hl) hiQ
          simp [hlt]
        | false =>
          have hgt : ¬i ≤ Q := fun hle => by
            have := hinv.mpr hle; rw [hl] at this; exact Bool.false_ne_true this
          simp [show ¬i < Q from by omega]
      · by_cases h3 : c = 63
        · have hge : Q ≤ i := by
            by_contra hlt
            push_neg at hlt
            exact hno i (by omega) hlt (by rw [hc, h3])
          have hnext : (if c = 63 then false else left) = true ↔ i + 1 ≤ Q := by
            rw [if_pos h3]
            simp
            omega
          simp only [if_neg h1, if_neg h2, ih (i + 1) _ htail.symm hnext]
        · have hiQ : i ≠ Q := by
            intro he
            have h63 := hat (he ▸ hlen)
            rw [← he, hc] at h63
            exact h3 h63
          have hnext : (if c = 63 then false else left) = true ↔ i + 1 ≤ Q := by
            rw [if_neg h3]
            constructor
            · intro hl; have := hinv.mp hl; omega
            · intro hsucc; exact hinv.mpr (by omega)
          simp only [if_neg h1, if_neg h2, ih (i + 1) _ htail.symm hnext]

/-- No question mark occurs at or after the anchor but before the claim-side
first-question-mark position. -/
theorem qpos_no_qm (url : CStr) (A Q : Nat)
    (hQ : Q = (first_from 63 A url).getD url.length) :
    ∀ j, A ≤ j → j < Q → url.getD j 0 ≠ 63 := by
  intro j hAj hjQ
  cases hf : firstIdxOf 63 (url.drop A) with
  | none =>
    have hnone : first_from 63 A url = none := by
      simp [first_from, hf]
    rw [hnone, Option.getD_none] at hQ
    have hj : j - A < (url.drop A).length := by
      rw [List.length_drop]
      omega
    have hne := firstIdxOf_none 63 (url.drop A) hf (j - A) hj
    rw [getD_drop] at hne
    rwa [show A + (j - A) = j from by omega] at hne
  | some k =>
    have hsome : first_from 63 A url = some (k + A) := by
      simp [first_from, hf]
    rw [hsome, Option.getD_some] at hQ
    obtain ⟨hk1, hk2, hk3⟩ := firstIdxOf_some 63 (url.drop A) k hf
    have hne := hk3 (j - A) (by omega)
    rw [getD_drop] at hne
    rwa [show A + (j - A) = j from by omega] at hne

/-- The claim-side position holds a question mark when inside the string. -/
theorem qpos_at_qm (url : CStr) (A Q : Nat)
    (hQ : Q = (first_from 63 A url).getD url.length) :
    Q < url.length → url.getD Q 0 = 63 := by
  intro hlt
  cases hf : firstIdxOf 63 (url.drop A) with
  | none =>
    have hnone : first_from 63 A url = none := by
      simp [first_from, hf]
    rw [hnone, Option.getD_none] at hQ
    omega
  | some k =>
    have hsome : first_from 63 A url = some (k + A) := by
      simp [first_from, hf]
    rw [hsome, Option.getD_some] at hQ
    obtain ⟨hk1, hk2, hk3⟩ := firstIdxOf_some 63 (url.drop A) k hf
    rw [getD_drop] at hk2
    rw [hQ, show k + A = A + k from by omega]
    exact hk2

/-- The anchor is inside the string. -/
theorem host_start_le_length (url : CStr) : c8_host_start url ≤ url.length := by
  simp only [c8_host_start]
  cases hd : idx_after_dslash url with
  | none => simp
  | some i => simpa using idx_after_dslash_le url i hd

/-- The boundary lies at or after the host start. -/
theorem host_start_le_boundary (url : CStr) :
    c8_host_start url ≤ c8_boundary url := by
  have hA := host_start_le_length url
  simp only [c8_boundary, first_from]
  cases h47 : firstIdxOf 47 (url.drop (c8_host_start url)) <;>
    cases h63 : firstIdxOf 63 (url.drop (c8_host_start url)) <;>
      simp only [Option.map_some', Option.map_none'] <;> omega

/-- The boundary never lies beyond the first question mark of the host
region. -/
theorem boundary_le_qpos (url : CStr) :
    c8_boundary url ≤ c8_qpos url false := by
  have hA := host_start_le_length url
  simp only [c8_boundary, c8_qpos, if_neg Bool.false_ne_true, first_from]
  cases h47 : firstIdxOf 47 (url.drop (c8_host_start url)) with
  | none =>
    cases h63 : firstIdxOf 63 (url.drop (c8_host_start url)) with
    | none => simp
    | some b => simp only [Option.map_some', Option.map_none', Option.getD_some]; omega
  | some a =>
    have ha := (firstIdxOf_some _ _ _ h47).1
    rw [List.length_drop] at ha
    cases h63 : firstIdxOf 63 (url.drop (c8_host_start url)) with
    | none =>
      simp only [Option.map_some', Option.map_none', Option.getD_none]
      omega
    | some b =>
      simp only [Option.map_some', Option.getD_some]
      omega

/-- C8: Escaping boundary and space rule: `Curl_strcpy_url` with
`relative=false` copies every byte strictly before the host boundary — the
earlier of the first `/` after `"//"` (or the string start when there is no
`"//"`) and the first `?` of that region, or the end of the string —
unchanged; at or after that boundary a space becomes `"%20"` before the
first `?` and `"+"` at or after it, and any other byte is escaped exactly
when the shared classification requires; with `relative=true` this applies
from the very start of the string. -/
theorem c8_escaping_boundary :
    ∀ (url : CStr) (r : Bool), validC url →
      Curl_strcpy_url url r = c8_spec_copy url r := by
  intro url r _
  unfold Curl_strcpy_url c8_spec_copy
  have hbq : (if r then 0 else find_host_sep url) =
      (if r then 0 else c8_boundary url) := by
    cases r <;> simp [find_host_sep_eq_boundary]
  rw [hbq]
  cases r with
  | false =>
    have h1 : c8_boundary url ≤ c8_qpos url false := boundary_le_qpos url
    have h2 : ∀ j, c8_boundary url ≤ j → j < c8_qpos url false →
        url.getD j 0 ≠ 63 := by
      intro j hj hjQ
      exact qpos_no_qm url (c8_host_start url) _ (by simp [c8_qpos]) j
        (le_trans (host_start_le_boundary url) hj) hjQ
    have h3 : c8_qpos url false < url.length →
        url.getD (c8_qpos url false) 0 = 63 :=
      qpos_at_qm url (c8_host_start url) _ (by simp [c8_qpos])
    have hmain := strcpy_go_spec url (c8_boundary url) (c8_qpos url false)
      h1 h2 h3 url 0 true (List.drop_zero url).symm (by simp)
    simpa using hmain
  | true =>
    have h2 := qpos_no_qm url 0 (c8_qpos url true) (by simp [c8_qpos])
    have h3 := qpos_at_qm url 0 (c8_qpos url true) (by simp [c8_qpos])
    have hmain := strcpy_go_spec url 0 (c8_qpos url true) (Nat.zero_le _)
      (fun j _ hj => h2 j (Nat.zero_le _) hj) h3 url 0 true
      (List.drop_zero url).symm (by simp)
    simpa using hmain

/-- C8 witness: the characterization at a string with spaces in the host,
path and query regions. -/
theorem c8_witness :
    Curl_strcpy_url (s2b "http://a b/c d?e f") false =
      c8_spec_copy (s2b "http://a b/c d?e f") false :=
  c8_escaping_boundary (s2b "http://a b/c d?e f") false (by decide)

/-- Dropping the length of the matched prefix reaches `dropWhile`. -/
theorem drop_takeWhile_length (p : Nat → Bool) (l : CStr) :
    l.drop (l.takeWhile p).length = l.dropWhile p := by
  induction l with
  | nil => simp
  | cons c t ih =>
    by_cases hc : p c
    · simp [List.takeWhile_cons, List.dropWhile_cons, hc, ih]
    · simp [List.takeWhile_cons, List.dropWhile_cons, hc]

/-- The head of a nonempty `dropWhile` fails the predicate. -/
theorem dropWhile_head_not (p : Nat → Bool) (l : CStr) (c : Nat) (t : CStr)
    (h : l.dropWhile p = c :: t) : p c = false := by
  induction l with
  | nil => simp at h
  | cons b tb ih =>
    by_cases hb : p b
    · rw [List.dropWhile_cons_of_pos hb] at h
      exact ih h
    · rw [List.dropWhile_cons_of_neg hb] at h
      cases h
      simpa using hb

/-- `removeLastSeg` keeps the empty-or-slash-headed invariant. -/
theorem removeLastSeg_shape (out : CStr)
    (h : out = [] ∨ out.headD 0 = 47) :
    removeLastSeg out = [] ∨ (removeLastSeg out).headD 0 = 47 := by
  rcases h with h | h
  · subst h; left; simp [removeLastSeg, lastIdxOf]
  · unfold removeLastSeg
    cases hl : lastIdxOf 47 out with
    | none => left; rfl
    | some i =>
      cases i with
      | zero => left; simp
      | succ i =>
        cases out with
        | nil => left; simp
        | cons c t => right; simpa using h

/-- One step of remove_dot_segments on a slash-headed input: the input
shrinks, stays empty-or-slash-headed, and the output buffer either is kept,
loses its last segment, or gains one new slash-headed segment; when the
input is exhausted a segment was just appended. -/
theorem rds_step_spec (out inp : CStr) (hne : inp ≠ [])
    (hinp : inp.headD 0 = 47) :
    (rds_step out inp).2.length < inp.length ∧
    ((rds_step out inp).2 = [] ∨ (rds_step out inp).2.headD 0 = 47) ∧
    ((rds_step out inp).1 = out ∨ (rds_step out inp).1 = removeLastSeg out ∨
      ∃ seg, (rds_step out inp).1 = out ++ 47 :: seg) ∧
    ((rds_step out inp).2 = [] →
      ∃ seg, (rds_step out inp).1 = out ++ 47 :: seg) := by
  have hmove : ∀ (x : CStr),
      (out ++ 47 :: x.takeWhile (fun c => c ≠ 47),
        x.drop (x.takeWhile (fun c => c ≠ 47)).length).2.length < (47 :: x).length ∧
      ((out ++ 47 :: x.takeWhile (fun c => c ≠ 47),
        x.drop (x.takeWhile (fun c => c ≠ 47)).length).2 = [] ∨
        (out ++ 47 :: x.takeWhile (fun c => c ≠ 47),
        x.drop (x.takeWhile (fun c => c ≠ 47)).length).2.headD 0 = 47) ∧
      ((out ++ 47 :: x.takeWhile (fun c => c ≠ 47),
        x.drop (x.takeWhile (fun c => c ≠ 47)).length).1 = out ∨
        (out ++ 47 :: x.takeWhile (fun c => c ≠ 47),
        x.drop (x.takeWhile (fun c => c ≠ 47)).length).1 = removeLastSeg out ∨
        ∃ seg, (out ++ 47 :: x.takeWhile (fun c => c ≠ 47),
          x.drop (x.takeWhile (fun c => c ≠ 47)).length).1 = out ++ 47 :: seg) ∧
      ((out ++ 47 :: x.takeWhile (fun c => c ≠ 47),
        x.drop (x.takeWhile (fun c => c ≠ 47)).length).2 = [] →
        ∃ seg, (out ++ 47 :: x.takeWhile (fun c => c ≠ 47),
          x.drop (x.takeWhile (fun c => c ≠ 47)).length).1 = out ++ 47 :: seg) := by
    intro x
    refine ⟨?_, ?_, ?_, ?_⟩
    · simp only [List.length_cons, List.length_drop]
      omega
    · simp only
      rw [drop_takeWhile_length]
      cases hdw : x.dropWhile (fun c => c ≠ 47) with
      | nil => left; rfl
      | cons d td =>
        right
        have hd := dropWhile_head_not _ _ _ _ hdw
        simp at hd
        simp [hd]
    · right; right; exact ⟨_, rfl⟩
    · intro _; exact ⟨_, rfl⟩
  cases inp with
  | nil => exact absurd rfl hne
  | cons c0 t0 =>
    have hc0 : c0 = 47 := by simpa using hinp
    subst hc0
    rcases t0 with _ | ⟨c1, t1⟩
    · simp [rds_step]
    · by_cases hc1 : c1 = 46
      · subst hc1
        rcases t1 with _ | ⟨c2, t2⟩
        · refine ⟨by simp [rds_step], by simp [rds_step], ?_, by simp [rds_step]⟩
          simp [rds_step]
        · by_cases hc2 : c2 = 47
          · subst hc2
            refine ⟨by simp [rds_step], by simp [rds_step], ?_, by simp [rds_step]⟩
            simp [rds_step]
          · by_cases hc2' : c2 = 46
            · subst hc2'
              rcases t2 with _ | ⟨c3, t3⟩
              · refine ⟨by simp [rds_step], by simp [rds_step], ?_,
                  by simp [rds_step]⟩
                simp [rds_step]
              · by_cases hc3 : c3 = 47
                · subst hc3
                  refine ⟨by simp [rds_step], by simp [rds_step], ?_,
                    by simp [rds_step]⟩
                  simp [rds_step]
                · have hstep : rds_step out (47 :: 46 :: 46 :: c3 :: t3) =
                      (out ++ 47 :: ((46 :: 46 :: c3 :: t3).takeWhile
                        (fun c => c ≠ 47)),
                       (46 :: 46 :: c3 :: t3).drop
                        (((46 :: 46 :: c3 :: t3).takeWhile
                          (fun c => c ≠ 47)).length)) := by
                    simp [rds_step, hc3]
                  rw [hstep]
                  exact hmove (46 :: 46 :: c3 :: t3)
            · have hstep : rds_step out (47 :: 46 :: c2 :: t2) =
                  (out ++ 47 :: ((46 :: c2 :: t2).takeWhile
                    (fun c => c ≠ 47)),
                   (46 :: c2 :: t2).drop
                    (((46 :: c2 :: t2).takeWhile (fun c => c ≠ 47)).length)) := by
                simp [rds_step, hc2, hc2']
              rw [hstep]
              exact hmove (46 :: c2 :: t2)
      · have hstep : rds_step out (47 :: c1 :: t1) =
            (out ++ 47 :: ((c1 :: t1).takeWhile (fun c => c ≠ 47)),
             (c1 :: t1).drop
              (((c1 :: t1).takeWhile (fun c => c ≠ 47)).length)) := by
          simp [rds_step, hc1]
        rw [hstep]
        exact hmove (c1 :: t1)

/-- The head of an output extended by one slash-headed segment. -/
theorem headD_append_seg (out seg : CStr)
    (hout : out = [] ∨ out.headD 0 = 47) :
    (out ++ 47 :: seg) ≠ [] ∧ (out ++ 47 :: seg).headD 0 = 47 := by
  rcases hout with h | h
  · subst h; simp
  · cases out with
    | nil => simp
    | cons o t => simpa using h

/-- remove_dot_segments keeps a slash-headed nonempty result (for
slash-headed input and a well-shaped output buffer). -/
theorem rds_shape (fuel : Nat) : ∀ (inp out : CStr),
    inp.length ≤ fuel → (inp = [] ∨ inp.headD 0 = 47) →
    (out = [] ∨ out.headD 0 = 47) →
    ((rds fuel out inp = out ∧ inp = []) ∨
     (rds fuel out inp ≠ [] ∧ (rds fuel out inp).headD 0 = 47)) := by
  induction fuel with
  | zero =>
    intro inp out hlen _ _
    have hnil : inp = [] := by
      cases inp with
      | nil => rfl
      | cons c t => simp at hlen
    subst hnil
    left
    exact ⟨rfl, rfl⟩
  | succ fuel ih =>
    intro inp out hlen hinp hout
    cases hinp2 : inp with
    | nil =>
      subst hinp2
      left
      exact ⟨by simp [rds], rfl⟩
    | cons c t =>
      subst hinp2
      have hne : (c :: t : CStr) ≠ [] := by simp
      have hhead : (c :: t : CStr).headD 0 = 47 := by
        rcases hinp with h | h
        · simp at h
        · exact h
      obtain ⟨hlt, hP2, hP1, hP4⟩ := rds_step_spec out (c :: t) hne hhead
      have hrds : rds (fuel + 1) out (c :: t) =
          rds fuel (rds_step out (c :: t)).1 (rds_step out (c :: t)).2 := by
        simp [rds]
      have hout' : (rds_step out (c :: t)).1 = [] ∨
          (rds_step out (c :: t)).1.headD 0 = 47 := by
        rcases hP1 with h | h | ⟨seg, h⟩
        · rw [h]; exact hout
        · rw [h]; exact removeLastSeg_shape out hout
        · rw [h]; right; exact (headD_append_seg out seg hout).2
      simp only [List.length_cons] at hlen
      have hrec := ih (rds_step out (c :: t)).2 (rds_step out (c :: t)).1
        (by simp only [List.length_cons] at hlt; omega) hP2 hout'
      rcases hrec with ⟨heq, hnil2⟩ | hgood
      · obtain ⟨seg, hseg⟩ := hP4 hnil2
        right
        rw [hrds, heq, hseg]
        exact headD_append_seg out seg hout
      · right
        rw [hrds]
        exact hgood

/-- The normalization of a nonempty slash-headed path is nonempty and
slash-headed. -/
theorem dedot_shape (p : CStr) (hne : p ≠ []) (hp : p.headD 0 = 47) :
    Curl_dedotdotify p ≠ [] ∧ (Curl_dedotdotify p).headD 0 = 47 := by
  unfold Curl_dedotdotify
  rcases rds_shape p.length p [] le_rfl (Or.inr hp) (Or.inl rfl) with
    ⟨_, hnil⟩ | hgood
  · exact absurd hnil hne
  · exact hgood

/-- Login extraction never touches the stored path. -/
theorem parse_hostname_login_path (u : Curl_URL) (hn : CStr) (fl : Flags)
    (u2 : Curl_URL) (hn2 : CStr)
    (h : parse_hostname_login u hn fl = .ok (u2, hn2)) : u2.path = u.path := by
  simp only [parse_hostname_login] at h
  split at h
  · simp only [Except.ok.injEq, Prod.mk.injEq] at h
    rw [← h.1]
  · split at h
    · simp at h
    · simp only [Except.ok.injEq, Prod.mk.injEq] at h
      rw [← h.1]

/-- The host/port stores never touch the path. -/
theorem store_host_port_path (u : Curl_URL) (hn : CStr)
    (pi : Option (CStr × Nat)) : (store_host_port u hn pi).path = u.path := by
  unfold store_host_port
  split <;> rfl

/-- The query/fragment stores never touch the path. -/
theorem store_qf_path (u : Curl_URL) (q f : Option CStr) :
    (store_qf u q f).path = u.path := by
  cases q <;> cases f
  · rfl
  · dsimp [store_qf]; split <;> rfl
  · dsimp [store_qf]; split <;> rfl
  · dsimp [store_qf]; split <;> split <;> rfl

/-- The stored path of a successful `parse_tail` run is exactly the fixed-up
pre-query path. -/
theorem parse_tail_path (u0 : Curl_URL) (hn p0 : CStr) (fl : Flags)
    (h : Curl_URL) (hok : parse_tail u0 hn p0 fl = .ok h) :
    h.path = some (path_fixup (split_qf p0).1 fl) := by
  simp only [parse_tail] at hok
  split at hok
  · simp at hok
  · rename_i u2hn2 heqL
    split at hok
    · simp at hok
    · rename_i hn3pi heqP
      split at hok
      · simp only [Except.ok.injEq] at hok
        subst hok
        rw [store_qf_path, store_host_port_path]
        exact parse_hostname_login_path _ _ _ _ _ heqL
      · simp at hok

/-- Successful creation comes from a successful parse with verify-only
unset. -/
theorem curl_url_ok (g s : CStr) (fl : Flags) (h : Curl_URL)
    (hok : curl_url g s fl = (.CURLURLE_OK, some h)) :
    parseurl g s emptyU fl = .ok h ∧ fl.CURLURL_VERIFY_ONLY = false := by
  simp only [curl_url] at hok
  cases hp : parseurl g s emptyU fl with
  | error e => rw [hp] at hok; simp at hok
  | ok u =>
    rw [hp] at hok
    cases hfl : fl.CURLURL_VERIFY_ONLY with
    | true =>
      rw [hfl] at hok
      simp at hok
    | false =>
      rw [hfl] at hok
      simp at hok
      rw [hok]
      exact ⟨rfl, rfl⟩

/-- The stored path of any successful parse is the fixed-up version of the
branch-dispatched pre-query path text. -/
theorem parseurl_path (g url : CStr) (u0 : Curl_URL) (fl : Flags)
    (h : Curl_URL) (hok : parseurl g url u0 fl = .ok h) :
    h.path = some (path_fixup (parsed_prepath url) fl) := by
  simp only [parseurl] at hok
  split at hok
  · simp at hok
  · rename_i hfile0
    split at hok
    · rename_i hfile
      split at hok
      · simp at hok
      · rename_i p0 heqF
        rw [parse_tail_path _ _ _ _ _ hok]
        simp [parsed_prepath, hfile, heqF]
    · rename_i hfile
      split at hok
      · simp at hok
      · rename_i hrc2
        split at hok
        · rename_i hrc3
          split at hok
          · simp at hok
          · split at hok
            · simp at hok
            · simp only [finish_scheme] at hok
              split at hok
              · simp at hok
              · rw [parse_tail_path _ _ _ _ _ hok]
                simp [parsed_prepath, hfile, hrc3]
        · rename_i hrc3
          simp only [finish_scheme] at hok
          split at hok
          · simp at hok
          · rw [parse_tail_path _ _ _ _ _ hok]
            simp [parsed_prepath, hfile, hrc3]

/-- The fixed-up path is nonempty and slash-headed. -/
theorem path_fixup_shape (p1 : CStr) (fl : Flags) :
    path_fixup p1 fl ≠ [] ∧ (path_fixup p1 fl).headD 0 = 47 := by
  have hgen : ∀ p2 : CStr, p2 ≠ [] →
      (if p2.headD 0 ≠ 47 then 47 :: p2
       else if !fl.CURLURL_PATH_AS_IS then
         (if Curl_dedotdotify p2 ≠ p2 then Curl_dedotdotify p2 else p2)
       else p2) ≠ [] ∧
      (if p2.headD 0 ≠ 47 then 47 :: p2
       else if !fl.CURLURL_PATH_AS_IS then
         (if Curl_dedotdotify p2 ≠ p2 then Curl_dedotdotify p2 else p2)
       else p2).headD 0 = 47 := by
    intro p2 hne
    by_cases hh : p2.headD 0 = 47
    · rw [if_neg (not_ne_iff.mpr hh)]
      cases hfl : fl.CURLURL_PATH_AS_IS
      · rw [if_pos (by decide)]
        by_cases hde : Curl_dedotdotify p2 ≠ p2
        · rw [if_pos hde]
          exact dedot_shape p2 hne hh
        · rw [if_neg hde]
          exact ⟨hne, hh⟩
      · rw [if_neg (by decide)]
        exact ⟨hne, hh⟩
    · rw [if_pos hh]
      exact ⟨by simp, rfl⟩
  have hne2 : (if p1.isEmpty then ([47] : CStr) else p1) ≠ [] := by
    split
    · simp
    · rename_i hp1
      simp only [List.isEmpty_eq_true] at hp1
      exact hp1
  exact hgen _ hne2

/-- With normalization enabled and a slash-headed (defaulted) path, the
fixed-up path is exactly the normalization. -/
theorem path_fixup_dedot (p1 : CStr) (fl : Flags)
    (hpai : fl.CURLURL_PATH_AS_IS = false)
    (hh : (if p1.isEmpty then ([47] : CStr) else p1).headD 0 = 47) :
    path_fixup p1 fl = Curl_dedotdotify (if p1.isEmpty then [47] else p1) := by
  have hgen : ∀ p2 : CStr, p2.headD 0 = 47 →
      (if p2.headD 0 ≠ 47 then 47 :: p2
       else if !fl.CURLURL_PATH_AS_IS then
         (if Curl_dedotdotify p2 ≠ p2 then Curl_dedotdotify p2 else p2)
       else p2) = Curl_dedotdotify p2 := by
    intro p2 hh2
    rw [if_neg (not_ne_iff.mpr hh2), hpai, if_pos (by decide)]
    by_cases hde : Curl_dedotdotify p2 ≠ p2
    · rw [if_pos hde]
    · rw [if_neg hde]
      exact (not_ne_iff.mp hde).symm
  exact hgen _ hh

/-- Without a leading slash the fixed-up path is the slash-inserted text —
normalization is skipped. -/
theorem path_fixup_insert (p1 : CStr) (fl : Flags)
    (hh : (if p1.isEmpty then ([47] : CStr) else p1).headD 0 ≠ 47) :
    path_fixup p1 fl = 47 :: (if p1.isEmpty then [47] else p1) := by
  have hgen : ∀ p2 : CStr, p2.headD 0 ≠ 47 →
      (if p2.headD 0 ≠ 47 then 47 :: p2
       else if !fl.CURLURL_PATH_AS_IS then
         (if Curl_dedotdotify p2 ≠ p2 then Curl_dedotdotify p2 else p2)
       else p2) = 47 :: p2 := by
    intro p2 hh2
    rw [if_pos hh2]
  exact hgen _ hh

/-- C6 (amended): for every URL that parses successfully without the
keep-path-as-is option, the stored path is present, nonempty and starts
with a slash; it equals the RFC3986 remove_dot_segments normalization of
the (empty-defaulted) pre-query path text whenever that text already starts
with a slash, but when a leading slash has to be inserted (file: paths, or
a path text starting with `#` cut short by a later `?`) the normalization
is skipped and the slash-inserted text is stored unnormalized. -/
theorem c6_amended (g url : CStr) (fl : Flags) (h : Curl_URL)
    (hok : curl_url g url fl = (.CURLURLE_OK, some h))
    (hpai : fl.CURLURL_PATH_AS_IS = false) :
    ∃ p, h.path = some p ∧ p ≠ [] ∧ p.headD 0 = 47 ∧
      p = path_fixup (parsed_prepath url) fl ∧
      ((if (parsed_prepath url).isEmpty then ([47] : CStr)
        else parsed_prepath url).headD 0 = 47 →
        p = Curl_dedotdotify
          (if (parsed_prepath url).isEmpty then [47]
           else parsed_prepath url)) ∧
      ((if (parsed_prepath url).isEmpty then ([47] : CStr)
        else parsed_prepath url).headD 0 ≠ 47 →
        p = 47 :: (if (parsed_prepath url).isEmpty then [47]
           else parsed_prepath url)) := by
  obtain ⟨hpu, _⟩ := curl_url_ok g url fl h hok
  have hpath := parseurl_path g url emptyU fl h hpu
  refine ⟨path_fixup (parsed_prepath url) fl, hpath,
    (path_fixup_shape _ fl).1, (path_fixup_shape _ fl).2, rfl, ?_, ?_⟩
  · intro hh
    exact path_fixup_dedot _ fl hpai hh
  · intro hh
    exact path_fixup_insert _ fl hh

/-- C6 witness: the amended theorem at a URL whose path gets normalized. -/
theorem c6_witness :
    ∃ p, ({ scheme := some (s2b "http"), host := some (s2b "h"),
            path := some (s2b "/b") } : Curl_URL).path = some p ∧
      p ≠ [] ∧ p.headD 0 = 47 ∧
      p = path_fixup (parsed_prepath (s2b "http://h/a/../b")) flags0 ∧
      ((if (parsed_prepath (s2b "http://h/a/../b")).isEmpty then ([47] : CStr)
        else parsed_prepath (s2b "http://h/a/../b")).headD 0 = 47 →
        p = Curl_dedotdotify
          (if (parsed_prepath (s2b "http://h/a/../b")).isEmpty then [47]
           else parsed_prepath (s2b "http://h/a/../b"))) ∧
      ((if (parsed_prepath (s2b "http://h/a/../b")).isEmpty then ([47] : CStr)
        else parsed_prepath (s2b "http://h/a/../b")).headD 0 ≠ 47 →
        p = 47 :: (if (parsed_prepath (s2b "http://h/a/../b")).isEmpty
           then [47] else parsed_prepath (s2b "http://h/a/../b"))) :=
  c6_amended [] (s2b "http://h/a/../b") flags0
    { scheme := some (s2b "http"), host := some (s2b "h"),
      path := some (s2b "/b") } (by decide) (by decide)

/-- A list all of whose bytes satisfy `p` is untouched by `takeWhile p`,
even with a continuation appended, up to the continuation's own scan. -/
theorem takeWhile_append_all (p : Nat → Bool) (a b : CStr)
    (h : ∀ c ∈ a, p c = true) :
    (a ++ b).takeWhile p = a ++ b.takeWhile p := by
  induction a with
  | nil => simp
  | cons c t ih =>
    simp only [List.cons_append, List.takeWhile_cons]
    rw [h c (by simp), ih (fun x hx => h x (by simp [hx]))]
    simp

/-- `takeWhile` stops immediately on a failing head byte. -/
theorem takeWhile_cons_stop (p : Nat → Bool) (c : Nat) (t : CStr)
    (h : p c = false) : (c :: t).takeWhile p = [] := by
  simp [List.takeWhile_cons, h]

/-- `takeWhile` keeps a list all of whose bytes satisfy `p`. -/
theorem takeWhile_of_all (p : Nat → Bool) (l : CStr)
    (h : ∀ c ∈ l, p c = true) : l.takeWhile p = l := by
  have := takeWhile_append_all p l [] h
  simpa using this

/-- `strchr` misses: no occurrence, no split. -/
theorem strchr_split_not_mem (c : Nat) (l : CStr) (h : c ∉ l) :
    strchr_split c l = none := by
  induction l with
  | nil => rfl
  | cons b t ih =>
    simp only [List.mem_cons, not_or] at h
    simp only [strchr_split]
    rw [if_neg (fun hb => h.1 hb.symm), ih h.2]
    rfl

/-- `strchr` hits the marked occurrence when the prefix is clean. -/
theorem strchr_split_append (c : Nat) (a b : CStr) (h : c ∉ a) :
    strchr_split c (a ++ c :: b) = some (a, b) := by
  induction a with
  | nil => simp [strchr_split]
  | cons x t ih =>
    simp only [List.mem_cons, not_or] at h
    simp only [List.cons_append, strchr_split]
    rw [if_neg (fun hb => h.1 hb.symm), List.append_eq, ih h.2]
    rfl

/-- Index form of the `strchr` miss. -/
theorem firstIdxOf_not_mem (c : Nat) (l : CStr) (h : c ∉ l) :
    firstIdxOf c l = none := by
  induction l with
  | nil => rfl
  | cons b t ih =>
    simp only [List.mem_cons, not_or] at h
    simp only [firstIdxOf]
    rw [if_neg (fun hb => h.1 hb.symm), ih h.2]
    rfl

/-- Index form of the `strchr` hit. -/
theorem firstIdxOf_append_cons (c : Nat) (a b : CStr) (h : c ∉ a) :
    firstIdxOf c (a ++ c :: b) = some a.length := by
  induction a with
  | nil => simp [firstIdxOf]
  | cons x t ih =>
    simp only [List.mem_cons, not_or] at h
    simp only [List.cons_append, firstIdxOf]
    rw [if_neg (fun hb => h.1 hb.symm), List.append_eq, ih h.2]
    simp

/-- `headD` of an append looks only at a nonempty left part. -/
theorem headD_append_left (a b : CStr) (d : Nat) (h : a ≠ []) :
    (a ++ b).headD d = a.headD d := by
  cases a with
  | nil => exact absurd rfl h
  | cons c t => rfl

/-- Every byte `snprintf("%ld")` writes is a decimal digit. -/
theorem natDigitsAux_all_digit (fuel : Nat) : ∀ n, n ≤ fuel ∨ n < 10 →
    (natDigitsAux fuel n).all isDigitB = true := by
  induction fuel with
  | zero =>
    intro n h
    have hn : n < 10 := by omega
    simp only [natDigitsAux, List.all_cons, List.all_nil, Bool.and_true]
    simp [isDigitB]
    omega
  | succ fuel ih =>
    intro n h
    by_cases hn : n < 10
    · simp only [natDigitsAux, if_pos hn, List.all_cons, List.all_nil,
        Bool.and_true]
      simp [isDigitB]
      omega
    · have hrec := ih (n / 10) (Or.inl (by omega))
      simp only [natDigitsAux, if_neg hn, List.all_append, hrec,
        List.all_cons, List.all_nil, Bool.true_and, Bool.and_true]
      simp [isDigitB]
      omega

theorem natDigits_all_digit (n : Nat) : (natDigits n).all isDigitB = true :=
  natDigitsAux_all_digit n n (Or.inl le_rfl)

/-- The digit writer never produces an empty string. -/
theorem natDigitsAux_ne_nil (fuel n : Nat) : natDigitsAux fuel n ≠ [] := by
  cases fuel with
  | zero => simp [natDigitsAux]
  | succ fuel =>
    simp only [natDigitsAux]
    split
    · simp
    · simp

/-- Folding the decimal digits of `n` back into a number recovers `n`. -/
theorem natDigitsAux_foldl (fuel : Nat) : ∀ n a, n ≤ fuel ∨ n < 10 →
    (natDigitsAux fuel n).foldl (fun acc c => acc * 10 + (c - 48)) a =
      a * 10 ^ (natDigitsAux fuel n).length + n := by
  induction fuel with
  | zero =>
    intro n a h
    simp only [natDigitsAux, List.foldl_cons, List.foldl_nil,
      List.length_cons, List.length_nil]
    have hn : n < 10 := by omega
    simp
  | succ fuel ih =>
    intro n a h
    by_cases hn : n < 10
    · simp only [natDigitsAux, if_pos hn, List.foldl_cons, List.foldl_nil,
        List.length_cons, List.length_nil]
      simp
    · simp only [natDigitsAux, if_neg hn, List.foldl_append,
        List.foldl_cons, List.foldl_nil, List.length_append,
        List.length_cons, List.length_nil]
      rw [ih (n / 10) a (Or.inl (by omega))]
      have h48 : 48 + n % 10 - 48 = n % 10 := by omega
      rw [h48]
      calc ((a * 10 ^ (natDigitsAux fuel (n / 10)).length + n / 10)) * 10 +
            n % 10
          = a * (10 ^ (natDigitsAux fuel (n / 10)).length * 10) +
            (10 * (n / 10) + n % 10) := by ring
        _ = a * 10 ^ ((natDigitsAux fuel (n / 10)).length + 0 + 1) + n := by
            rw [Nat.div_add_mod]
            ring

/-- `strtol` reads back exactly the number `snprintf("%ld")` wrote, and
consumes the whole digit string. -/
theorem strtol10_natDigits (n : Nat) (h1 : 1 ≤ n) (h2 : n ≤ 65535) :
    strtol10 (natDigits n) = ((n : Int), (natDigits n).length) := by
  have hall := natDigits_all_digit n
  obtain ⟨d, t, hd⟩ : ∃ d t, natDigits n = d :: t := by
    cases hnd : natDigits n with
    | nil => exact absurd hnd (natDigitsAux_ne_nil n n)
    | cons d t => exact ⟨d, t, rfl⟩
  have hfold := natDigitsAux_foldl n n 0 (Or.inl le_rfl)
  rw [natDigits] at hall hd ⊢
  rw [hd] at hall hfold ⊢
  have hd48 : 48 ≤ d ∧ d ≤ 57 := by
    rw [List.all_cons, Bool.and_eq_true] at hall
    have := hall.1
    simp [isDigitB] at this
    omega
  have hws : (d :: t).takeWhile ISSPACE = [] := by
    apply takeWhile_cons_stop
    simp [ISSPACE]
    omega
  have hds : (d :: t).takeWhile isDigitB = d :: t := by
    apply takeWhile_of_all
    intro c hc
    exact List.all_eq_true.mp hall c hc
  obtain ⟨hdl, hdr⟩ := hd48
  interval_cases d <;>
  · simp only [strtol10, hws, List.length_nil, List.drop_zero, hds, hfold,
      Nat.zero_mul, Nat.zero_add]
    rw [if_neg (by simp), if_neg (by push_cast; omega),
      if_neg (by push_cast; omega)]
    simp

/-- Lower-casing maps only `:` to `:`. -/
theorem lowerB_eq_58 (c : Nat) (h : lowerB c = 58) : c = 58 := by
  unfold lowerB at h
  split at h <;> omega

/-- A colon-free scheme whose lower-cased form is not "file" never makes the
serialized URL look like a file: URL to the case-insensitive prefix test. -/
theorem file_prefix_false (sch rest : CStr)
    (hall : sch.all (fun c => !stop1 c) = true)
    (hfile : sch.map lowerB ≠ s2b "file") :
    checkPfxCI (s2b "file:") (sch ++ 58 :: rest) = false := by
  simp only [checkPfxCI, caseiEq]
  rw [decide_eq_false_iff_not]
  intro hEq
  have h5 : (s2b "file:").map lowerB = [102, 105, 108, 101, 58] := by decide
  have hlen5 : (s2b "file:").length = 5 := by decide
  rw [h5, hlen5] at hEq
  rcases (by omega : sch.length < 4 ∨ sch.length = 4 ∨ 4 < sch.length) with
    hl | hl | hl
  · have hc := congrArg (fun l => l[sch.length]?) hEq
    simp only [List.getElem?_map] at hc
    rw [List.getElem?_take] at hc
    rw [if_pos (by omega : sch.length < 5)] at hc
    rw [List.getElem?_append_right (le_refl _)] at hc
    simp only [Nat.sub_self, List.getElem?_cons_zero, Option.map_some'] at hc
    have h58 : lowerB 58 = 58 := by decide
    rw [h58] at hc
    revert hc
    generalize sch.length = k at hl
    interval_cases k <;> simp
  · have htake : (sch ++ 58 :: rest).take 5 = sch ++ [58] := by
      rw [List.take_append_eq_append_take, List.take_of_length_le (by omega)]
      rw [hl]
      rfl
    rw [htake, List.map_append] at hEq
    have h58 : ([58] : CStr).map lowerB = [58] := by decide
    rw [h58] at hEq
    have hsplit : s2b "file" ++ [58] = sch.map lowerB ++ [58] := by
      rw [← hEq]
      decide
    have := (List.append_inj' hsplit rfl).1
    exact hfile this.symm
  · have hc := congrArg (fun l => l[4]?) hEq
    simp only [List.getElem?_map] at hc
    rw [List.getElem?_take] at hc
    rw [if_pos (by omega : (4 : Nat) < 5)] at hc
    rw [List.getElem?_append, if_pos (by omega : 4 < sch.length)] at hc
    rw [List.getElem?_eq_getElem (by omega : 4 < sch.length)] at hc
    simp only [Option.map_some'] at hc
    have hmem : sch[4] ∈ sch := List.getElem_mem _
    have h4 : sch[4] = 58 := lowerB_eq_58 _ (by simpa using hc.symm)
    have := List.all_eq_true.mp hall _ hmem
    rw [h4] at this
    simp [stop1] at this

/-- Weakening for byte-class scans. -/
theorem all_weaken (p q : Nat → Bool) (l : CStr)
    (himp : ∀ c, p c = true → q c = true) (h : l.all p = true) :
    l.all q = true := by
  rw [List.all_eq_true] at h ⊢
  exact fun c hc => himp c (h c hc)

/-- Decimal digits survive the authority scan. -/
theorem digit_not_stop2 (c : Nat) (h : isDigitB c = true) : (!stop2 c) = true := by
  simp [isDigitB] at h
  simp [stop2]
  omega

/-- The four-conversion sscanf on a serialized URL
`scheme ++ "://" ++ authority ++ path` recovers exactly the three buffers. -/
theorem scan4_serialized (sch A P : CStr)
    (hsne : sch ≠ []) (hs15 : sch.length ≤ 15)
    (hsall : sch.all (fun c => !stop1 c) = true)
    (hAne : A ≠ []) (hAall : A.all (fun c => !stop2 c) = true)
    (hPne : P ≠ []) (hP47 : P.headD 0 = 47)
    (hP10 : P.all (fun c => c != 10) = true) :
    scan4 (sch ++ 58 :: 47 :: 47 :: (A ++ P)) = ⟨4, sch, A, P⟩ := by
  obtain ⟨a, A', rfl⟩ : ∃ a A', A = a :: A' := by
    cases A with
    | nil => exact absurd rfl hAne
    | cons a A' => exact ⟨a, A', rfl⟩
  obtain ⟨p0, P', rfl⟩ : ∃ p0 P', P = p0 :: P' := by
    cases P with
    | nil => exact absurd rfl hPne
    | cons p0 P' => exact ⟨p0, P', rfl⟩
  have hp0 : p0 = 47 := by simpa using hP47
  subst hp0
  have ha : (!stop2 a) = true := by
    rw [List.all_cons, Bool.and_eq_true] at hAall
    exact hAall.1
  have hsr : (sch ++ 58 :: 47 :: 47 :: ((a :: A') ++ 47 :: P')).takeWhile
      (fun c => !stop1 c) = sch := by
    rw [takeWhile_append_all _ _ _ (List.all_eq_true.mp hsall)]
    rw [takeWhile_cons_stop _ _ _ (by decide)]
    simp
  simp only [scan4, hsr, List.take_of_length_le hs15]
  rw [if_neg (by simpa using hsne)]
  rw [List.drop_left]
  have ha47 : a ≠ 47 := by
    simp [stop2] at ha
    omega
  have hsl : (47 :: 47 :: ((a :: A') ++ 47 :: P')).takeWhile
      (fun c => decide (c = 47)) = [47, 47] := by
    rw [show (47 :: 47 :: ((a :: A') ++ 47 :: P')) =
      47 :: 47 :: a :: (A' ++ 47 :: P') by simp]
    rw [List.takeWhile_cons, List.takeWhile_cons, List.takeWhile_cons]
    simp [ha47]
  simp only [hsl, List.take_succ_cons, List.take_zero, List.take_nil]
  rw [if_neg (by simp)]
  have hhr : (((a :: A') ++ 47 :: P')).takeWhile (fun c => !stop2 c) =
      a :: A' := by
    rw [takeWhile_append_all _ _ _ (List.all_eq_true.mp hAall)]
    rw [takeWhile_cons_stop _ _ _ (by decide)]
    simp
  simp only [List.length_cons, List.length_nil, List.drop_succ_cons,
    List.drop_zero, hhr]
  rw [if_neg (by simp)]
  have hdrop : List.drop (A'.length + 1) ((a :: A') ++ 47 :: P') =
      47 :: P' := by
    rw [show A'.length + 1 = (a :: A').length by simp]
    exact List.drop_left _ _
  rw [hdrop]
  have hpr : (47 :: P').takeWhile (fun c => decide ¬(c = 10)) = 47 :: P' := by
    apply takeWhile_of_all
    intro c hc
    have := List.all_eq_true.mp hP10 c hc
    simpa using this
  rw [hpr]
  rw [if_neg (by simp)]

/-- The port scan at the serialized colon reads the canonical digits back. -/
theorem portParseAt_serialized (host : CStr) (pn : Nat)
    (h1 : 1 ≤ pn) (h2 : pn ≤ 65535) :
    portParseAt (host ++ 58 :: natDigits pn) host.length =
      .ok (host, some (natDigits pn, pn)) := by
  have hdrop : (host ++ 58 :: natDigits pn).drop (host.length + 1) =
      natDigits pn := by
    rw [show host ++ 58 :: natDigits pn = (host ++ [58]) ++ natDigits pn by
      simp]
    rw [show host.length + 1 = (host ++ [58]).length by simp]
    exact List.drop_left _ _
  have hst := strtol10_natDigits pn h1 h2
  simp only [portParseAt, hdrop, hst]
  rw [if_neg (by simp; omega)]
  rw [if_neg (by simp)]
  rw [if_pos (by
    have := natDigitsAux_ne_nil pn pn
    simp [natDigits]
    simpa [natDigits] using this)]
  rw [List.take_left]
  simp

/-- `parse_port` on the serialized host/port text recovers the components. -/
theorem parse_port_serialized (host : CStr) (port : Option CStr) (pn : Nat)
    (hhost58 : 58 ∉ host)
    (hport : port = none ∨ port = some (natDigits pn))
    (hpn12 : port.isSome = true → 1 ≤ pn ∧ pn ≤ 65535)
    (hbr : port.isSome = true →
      (bracketMatch (host ++ 58 :: natDigits pn)).getD host.length =
        host.length)
    (hbrn : port = none → bracketMatch host = none) :
    parse_port (host ++ port.elim [] (fun pp => 58 :: pp)) =
      .ok (host, port.map (fun pp => (pp, pn))) := by
  rcases hport with rfl | hp
  · simp only [Option.elim_none, List.append_nil, Option.map_none']
    simp [parse_port, hbrn rfl, firstIdxOf_not_mem 58 host hhost58]
  · subst hp
    obtain ⟨hp1, hp2⟩ := hpn12 rfl
    simp only [Option.elim_some, Option.map_some']
    cases hbm : bracketMatch (host ++ 58 :: natDigits pn) with
    | none =>
      simp only [parse_port, hbm]
      rw [firstIdxOf_append_cons 58 host _ hhost58]
      exact portParseAt_serialized host pn hp1 hp2
    | some k =>
      have hk : k = host.length := by
        have := hbr rfl
        rw [hbm] at this
        simpa using this
      subst hk
      simp only [parse_port, hbm]
      have hgd : (host ++ 58 :: natDigits pn).getD host.length 0 = 58 := by
        rw [List.getD_append_right _ _ _ _ (le_refl _), Nat.sub_self]
        rfl
      rw [if_neg (not_ne_iff.mpr hgd)]
      exact portParseAt_serialized host pn hp1 hp2

/-- The query/fragment split on the serialized path text recovers the
components. -/
theorem split_qf_serialized (path : CStr) (query frag : Option CStr)
    (hpath63 : 63 ∉ path)
    (hq35 : 35 ∉ query.getD [])
    (hqnone : query = none → 35 ∉ path ∧ 63 ∉ frag.getD []) :
    split_qf (path ++ (query.elim [] (fun q => 63 :: q) ++
      frag.elim [] (fun f => 35 :: f))) =
      (path, query, frag) := by
  cases query with
  | some q =>
    simp only [Option.getD_some] at hq35
    simp only [Option.elim_some]
    cases frag with
    | some f =>
      simp only [Option.elim_some]
      rw [show path ++ (63 :: q ++ 35 :: f) = path ++ 63 :: (q ++ 35 :: f) by
        simp]
      simp only [split_qf, strchr_split_append 63 path _ hpath63,
        strchr_split_append 35 q f hq35]
    | none =>
      simp only [Option.elim_none, List.append_nil, split_qf,
        strchr_split_append 63 path q hpath63,
        strchr_split_not_mem 35 q hq35]
  | none =>
    obtain ⟨hq35p, hq63f⟩ := hqnone rfl
    simp only [Option.elim_none]
    cases frag with
    | some f =>
      simp only [Option.elim_some]
      simp only [Option.getD_some] at hq63f
      have h63 : 63 ∉ path ++ 35 :: f := by
        simp only [List.mem_append, List.mem_cons]
        push_neg
        exact ⟨hpath63, by omega, hq63f⟩
      simp only [List.nil_append, split_qf, strchr_split_not_mem 63 _ h63,
        strchr_split_append 35 path f hq35p]
    | none =>
      simp only [Option.elim_none, List.nil_append, List.append_nil, split_qf,
        strchr_split_not_mem 63 path hpath63,
        strchr_split_not_mem 35 path hq35p]

/-- Login extraction on an authority without `@`. -/
theorem login_serialized_none (u1 : Curl_URL) (rest : CStr)
    (h64 : 64 ∉ rest) (fl : Flags) :
    parse_hostname_login u1 rest fl = .ok (u1, rest) := by
  simp [parse_hostname_login, strchr_split_not_mem 64 rest h64]

/-- Login extraction on a serialized credentials block. -/
theorem login_serialized_some (u1 : Curl_URL) (u' : CStr) (pw : Option CStr)
    (rest : CStr)
    (hu : u'.all okUser = true) (hp : (pw.getD []).all okPw = true) :
    parse_hostname_login u1
      (u' ++ (pw.elim [] (fun p => 58 :: p) ++ (64 :: rest))) flags0 =
      .ok ({u1 with user := some u', password := pw.elim u1.password (fun p => some p)}, rest) := by
  have hu64 : 64 ∉ u' := by
    intro hmem
    have := List.all_eq_true.mp hu _ hmem
    simp [okUser] at this
  have hu58 : 58 ∉ u' := by
    intro hmem
    have := List.all_eq_true.mp hu _ hmem
    simp [okUser] at this
  have hu59 : 59 ∉ u' := by
    intro hmem
    have := List.all_eq_true.mp hu _ hmem
    simp [okUser] at this
  cases pw with
  | none =>
    simp only [Option.elim_none, List.nil_append, parse_hostname_login]
    rw [strchr_split_append 64 u' rest hu64]
    have hlp : Curl_parse_login_details u' = (some u', none, none) := by
      simp only [Curl_parse_login_details]
      rw [strchr_split_not_mem 59 u' hu59, strchr_split_not_mem 58 u' hu58]
    simp [hlp, flags0]
  | some p =>
    simp only [Option.getD_some] at hp
    simp only [Option.elim_some]
    have hp59 : 59 ∉ p := by
      intro hmem
      have := List.all_eq_true.mp hp _ hmem
      simp [okPw] at this
    have hp64 : 64 ∉ p := by
      intro hmem
      have := List.all_eq_true.mp hp _ hmem
      simp [okPw] at this
    simp only [parse_hostname_login]
    rw [show u' ++ (58 :: p ++ 64 :: rest) =
      (u' ++ 58 :: p) ++ 64 :: rest by simp]
    rw [strchr_split_append 64 _ rest (by
      simp only [List.mem_append, List.mem_cons]
      push_neg
      exact ⟨hu64, by omega, hp64⟩)]
    have hlp : Curl_parse_login_details (u' ++ 58 :: p) =
        (some u', some p, none) := by
      simp only [Curl_parse_login_details]
      rw [strchr_split_not_mem 59 _ (by
        simp only [List.mem_append, List.mem_cons]
        push_neg
        exact ⟨hu59, by omega, hp59⟩)]
      rw [strchr_split_append 58 u' p hu58]
    simp [hlp, flags0]

/-- The serialized authority text scans clean and is nonempty. -/
theorem authority_facts (user pw port : Option CStr) (host : CStr) (pn : Nat)
    (huser : (user.getD []).all okUser = true)
    (hpw : (pw.getD []).all okPw = true)
    (hhostall : host.all okHost = true)
    (hport : port = none ∨ port = some (natDigits pn))
    (hauthne : user.isSome = true ∨ host ≠ [] ∨ port.isSome = true) :
    (user.getD [] ++ (pw.elim [] (fun p => 58 :: p) ++
      ((if user.isSome || pw.isSome then [64] else []) ++
        (host ++ port.elim [] (fun pp => 58 :: pp))))).all
      (fun c => !stop2 c) = true ∧
    user.getD [] ++ (pw.elim [] (fun p => 58 :: p) ++
      ((if user.isSome || pw.isSome then [64] else []) ++
        (host ++ port.elim [] (fun pp => 58 :: pp)))) ≠ [] := by
  have hu2 : (user.getD []).all (fun c => !stop2 c) = true :=
    all_weaken _ _ _ (fun c hc => by
      simp only [okUser, Bool.and_eq_true] at hc
      exact hc.1.1.1) huser
  have hpw2 : (pw.elim [] (fun p => 58 :: p)).all (fun c => !stop2 c)
      = true := by
    cases pw with
    | none => simp
    | some p =>
      simp only [Option.elim_some, List.all_cons, Bool.and_eq_true]
      refine ⟨by decide, ?_⟩
      exact all_weaken _ _ _ (fun c hc => by
        simp only [okPw, Bool.and_eq_true] at hc
        exact hc.1.1) hpw
  have hat2 : ((if user.isSome || pw.isSome then ([64] : CStr)
      else []) : CStr).all (fun c => !stop2 c) = true := by
    split
    · decide
    · decide
  have hh2 : host.all (fun c => !stop2 c) = true :=
    all_weaken _ _ _ (fun c hc => by
      simp only [okHost, Bool.and_eq_true] at hc
      exact hc.1.1) hhostall
  have hpo2 : (port.elim [] (fun pp => 58 :: pp)).all (fun c => !stop2 c)
      = true := by
    rcases hport with rfl | hp
    · simp
    · rw [hp]
      simp only [Option.elim_some, List.all_cons, Bool.and_eq_true]
      refine ⟨by decide, ?_⟩
      exact all_weaken _ _ _ (fun c hc => digit_not_stop2 c hc)
        (natDigits_all_digit pn)
  constructor
  · simp only [List.all_append, Bool.and_eq_true]
    exact ⟨hu2, hpw2, hat2, hh2, hpo2⟩
  · rcases hauthne with hu | hh | hp
    · have hat : (if user.isSome || pw.isSome then ([64] : CStr) else []) =
          [64] := by
        rw [if_pos]
        simp [hu]
      intro hnil
      simp only [List.append_eq_nil] at hnil
      rw [hat] at hnil
      simp at hnil
    · intro hnil
      simp only [List.append_eq_nil] at hnil
      exact hh hnil.2.2.2.1
    · rcases port with _ | pp
      · simp at hp
      · intro hnil
        simp only [Option.elim_some, List.append_eq_nil] at hnil
        simp at hnil

/-- The serialized path text is nonempty, slash-headed and newline-free. -/
theorem pathtext_facts (path : CStr) (query frag : Option CStr)
    (hpath47 : path.headD 0 = 47)
    (hpath10 : path.all (fun c => c != 10) = true)
    (hqok : (query.getD []).all (fun c => c != 10 && c != 35) = true)
    (hfok : (frag.getD []).all (fun c => c != 10) = true) :
    (path ++ (query.elim [] (fun q => 63 :: q) ++
      frag.elim [] (fun f => 35 :: f))) ≠ [] ∧
    (path ++ (query.elim [] (fun q => 63 :: q) ++
      frag.elim [] (fun f => 35 :: f))).headD 0 = 47 ∧
    (path ++ (query.elim [] (fun q => 63 :: q) ++
      frag.elim [] (fun f => 35 :: f))).all (fun c => c != 10) = true := by
  have hpathne : path ≠ [] := by
    intro hnil
    rw [hnil] at hpath47
    simp at hpath47
  refine ⟨?_, ?_, ?_⟩
  · intro hnil
    rw [List.append_eq_nil] at hnil
    exact hpathne hnil.1
  · rw [headD_append_left _ _ _ hpathne]
    exact hpath47
  · simp only [List.all_append, Bool.and_eq_true]
    refine ⟨hpath10, ?_, ?_⟩
    · cases query with
      | none => simp
      | some q =>
        simp only [Option.getD_some] at hqok
        simp only [Option.elim_some, List.all_cons, Bool.and_eq_true]
        refine ⟨by decide, ?_⟩
        exact all_weaken _ _ _ (fun c hc => by
          simp only [Bool.and_eq_true] at hc
          exact hc.1) hqok
    · cases frag with
      | none => simp
      | some f =>
        simp only [Option.getD_some] at hfok
        simp only [Option.elim_some, List.all_cons, Bool.and_eq_true]
        exact ⟨by decide, hfok⟩

/-- The serializer output, reassociated around the `"://"` marker. -/
theorem join_url_assoc (sch : CStr) (user pw : Option CStr) (host : CStr)
    (port : Option CStr) (path : CStr) (query frag : Option CStr) :
    join_url sch user pw host port path query frag =
      sch ++ 58 :: 47 :: 47 :: ((user.getD [] ++
        (pw.elim [] (fun p => 58 :: p) ++
          ((if user.isSome || pw.isSome then [64] else []) ++
            (host ++ port.elim [] (fun pp => 58 :: pp))))) ++
       (path ++ (query.elim [] (fun q => 63 :: q) ++
         frag.elim [] (fun f => 35 :: f)))) := by
  have h3 : s2b "://" = [58, 47, 47] := by decide
  simp only [join_url, h3]
  cases pw <;> cases port <;> cases query <;> cases frag <;>
    simp [List.append_assoc]

/-- At default flags, the composite get on a handle with all fields present
serializes scheme, credentials, host, port, path, query and fragment. -/
theorem curl_url_get_join (sch host path : CStr)
    (user pw port query frag : Option CStr) (pn : Nat) :
    curl_url_get (mkU sch user pw host port path query frag pn)
      .CURLUPART_URL flags0 =
    some (.ok (join_url sch user pw host port path query frag)) := by
  simp only [curl_url_get, mkU]
  cases port with
  | none => simp [flags0]
  | some pp =>
    rcases hcb : Curl_builtin_scheme sch with _ | dp
    · simp [flags0, hcb]
    · simp [flags0, hcb]

/-- The serialized URL does not start with a colon. -/
theorem serialized_head_ne_58 (sch rest : CStr) (hne : sch ≠ [])
    (hall : sch.all (fun c => !stop1 c) = true) :
    ¬((sch ++ 58 :: rest).headD 0 = 58) := by
  rw [headD_append_left _ _ _ hne]
  cases sch with
  | nil => exact absurd rfl hne
  | cons c t =>
    have hc := List.all_eq_true.mp hall c (List.mem_cons_self c t)
    simp only [List.headD_cons]
    intro hceq
    rw [hceq] at hc
    exact absurd hc (by decide)

/-- The serialized URL is not a file: URL. -/
theorem serialized_not_file (sch rest : CStr)
    (hall : sch.all (fun c => !stop1 c) = true)
    (hfile : sch.map lowerB ≠ s2b "file") :
    ¬(is_file_url (sch ++ 58 :: rest) = true) := by
  have hpfx := file_prefix_false sch rest hall hfile
  simp [is_file_url, hpfx]

/-- Re-parsing the serialized composite URL of an invariant-satisfying
handle recovers every stored field exactly. -/
theorem parseurl_serialized (g sch host path : CStr)
    (user pw port query frag : Option CStr) (pn : Nat)
    (hinv : c1_inv sch user pw host port path query frag pn) :
    parseurl g (sch ++ 58 :: 47 :: 47 :: ((user.getD [] ++
        (pw.elim [] (fun p => 58 :: p) ++
          ((if user.isSome || pw.isSome then [64] else []) ++
            (host ++ port.elim [] (fun pp => 58 :: pp))))) ++
       (path ++ (query.elim [] (fun q => 63 :: q) ++
         frag.elim [] (fun f => 35 :: f))))) emptyU flags0 =
      .ok (mkU sch user pw host port path query frag pn) := by
  obtain ⟨hschne, hsch15, hschall, hschfile, hschbi, huser, hpw, hpwuser,
    hhostall, hhc, hauthne, hport, hpn12, hpn0, hbr, hbrn, hpath47, hpath10,
    hpath63, hdedot, hqne, hqok, hfne, hfok, hqnone⟩ := hinv
  obtain ⟨hAall, hAne⟩ := authority_facts user pw port host pn huser hpw
    hhostall hport hauthne
  obtain ⟨hPne, hP47, hP10⟩ := pathtext_facts path query frag hpath47
    hpath10 hqok hfok
  have hscan := scan4_serialized sch _ _ hschne hsch15 hschall hAne hAall
    hPne hP47 hP10
  have hhost58 : 58 ∉ host := by
    intro hm
    have := List.all_eq_true.mp hhostall _ hm
    simp [okHost] at this
  have hq35 : 35 ∉ query.getD [] := by
    intro hm
    have := List.all_eq_true.mp hqok _ hm
    simp at this
  have hsp := split_qf_serialized path query frag hpath63 hq35 hqnone
  have hpp := parse_port_serialized host port pn hhost58 hport hpn12 hbr hbrn
  have hpathne : path ≠ [] := by
    intro hnil
    rw [hnil] at hpath47
    simp at hpath47
  have hie : path.isEmpty = false := by
    cases path with
    | nil => exact absurd rfl hpathne
    | cons c t => rfl
  have hfix : path_fixup path flags0 = path := by
    have hh : (if path.isEmpty then ([47] : CStr) else path).headD 0 = 47 := by
      rw [if_neg (by simp [hie])]
      exact hpath47
    rw [path_fixup_dedot path flags0 rfl hh]
    rw [if_neg (by simp [hie])]
    exact hdedot
  have h64po : 64 ∉ host ++ port.elim [] (fun pp => 58 :: pp) := by
    intro hm
    rcases List.mem_append.mp hm with hm | hm
    · have := List.all_eq_true.mp hhostall _ hm
      simp [okHost] at this
    · rcases hport with rfl | hp
      · simp at hm
      · rw [hp] at hm
        simp only [Option.elim_some, List.mem_cons] at hm
        rcases hm with h | h
        · omega
        · have := List.all_eq_true.mp (natDigits_all_digit pn) _ h
          simp [isDigitB] at this
  simp only [parseurl]
  rw [if_neg (serialized_head_ne_58 sch _ hschne hschall)]
  rw [if_neg (serialized_not_file sch _ hschall hschfile)]
  simp only [hscan]
  rw [if_neg (by omega)]
  rw [if_neg (by omega)]
  simp only [finish_scheme]
  have hbine : ¬(((Curl_builtin_scheme sch).isNone &&
      !flags0.CURLURL_NON_SUPPORT_SCHEME) = true) := by
    rcases hcb : Curl_builtin_scheme sch with _ | dp
    · rw [hcb] at hschbi
      simp at hschbi
    · simp
  rw [if_neg hbine]
  simp only [parse_tail, hsp, hfix]
  cases user with
  | none =>
    have hpwn : pw = none := by
      cases pw with
      | none => rfl
      | some p =>
        have := hpwuser rfl
        simp at this
    subst hpwn
    simp only [Option.getD_none, Option.elim_none, Option.isSome_none,
      Bool.or_self, Bool.false_eq_true, if_false, List.nil_append]
    have hlogin : ∀ u1 : Curl_URL, parse_hostname_login u1
        (host ++ port.elim [] (fun pp => 58 :: pp)) flags0 =
        .ok (u1, host ++ port.elim [] (fun pp => 58 :: pp)) :=
      fun u1 => login_serialized_none u1 _ h64po flags0
    simp only [hlogin, hpp, hhc]
    have hpn' := hpn0
    cases port with
    | none =>
      have hpnz : pn = 0 := hpn' rfl
      subst hpnz
      cases query with
      | none =>
        cases frag with
        | none => simp [store_qf, store_host_port, mkU, emptyU]
        | some f =>
          have hf : f.isEmpty = false := by
            cases f with
            | nil => exact absurd rfl hfne
            | cons c t => rfl
          simp [store_qf, store_host_port, mkU, emptyU, hf]
      | some q =>
        have hq : q.isEmpty = false := by
          cases q with
          | nil => exact absurd rfl hqne
          | cons c t => rfl
        cases frag with
        | none => simp [store_qf, store_host_port, mkU, emptyU, hq]
        | some f =>
          have hf : f.isEmpty = false := by
            cases f with
            | nil => exact absurd rfl hfne
            | cons c t => rfl
          simp [store_qf, store_host_port, mkU, emptyU, hq, hf]
    | some pp =>
      cases query with
      | none =>
        cases frag with
        | none => simp [store_qf, store_host_port, mkU, emptyU]
        | some f =>
          have hf : f.isEmpty = false := by
            cases f with
            | nil => exact absurd rfl hfne
            | cons c t => rfl
          simp [store_qf, store_host_port, mkU, emptyU, hf]
      | some q =>
        have hq : q.isEmpty = false := by
          cases q with
          | nil => exact absurd rfl hqne
          | cons c t => rfl
        cases frag with
        | none => simp [store_qf, store_host_port, mkU, emptyU, hq]
        | some f =>
          have hf : f.isEmpty = false := by
            cases f with
            | nil => exact absurd rfl hfne
            | cons c t => rfl
          simp [store_qf, store_host_port, mkU, emptyU, hq, hf]
  | some u' =>
    simp only [Option.getD_some] at huser
    simp only [Option.getD_some, Option.isSome_some, Bool.true_or, if_pos,
      List.singleton_append]
    have hlogin : ∀ u1 : Curl_URL, parse_hostname_login u1
        (u' ++ (pw.elim [] (fun p => 58 :: p) ++
          (64 :: (host ++ port.elim [] (fun pp => 58 :: pp))))) flags0 =
        .ok ({u1 with user := some u', password := pw.elim u1.password (fun p => some p)},
          host ++ port.elim [] (fun pp => 58 :: pp)) :=
      fun u1 => login_serialized_some u1 u' pw _ huser hpw
    simp only [hlogin, hpp, hhc]
    have hpn' := hpn0
    cases pw with
    | none =>
      cases port with
      | none =>
        have hpnz : pn = 0 := hpn' rfl
        subst hpnz
        cases query with
        | none =>
          cases frag with
          | none => simp [store_qf, store_host_port, mkU, emptyU]
          | some f =>
            have hf : f.isEmpty = false := by
              cases f with
              | nil => exact absurd rfl hfne
              | cons c t => rfl
            simp [store_qf, store_host_port, mkU, emptyU, hf]
        | some q =>
          have hq : q.isEmpty = false := by
            cases q with
            | nil => exact absurd rfl hqne
            | cons c t => rfl
          cases frag with
          | none => simp [store_qf, store_host_port, mkU, emptyU, hq]
          | some f =>
            have hf : f.isEmpty = false := by
              cases f with
              | nil => exact absurd rfl hfne
              | cons c t => rfl
            simp [store_qf, store_host_port, mkU, emptyU, hq, hf]
      | some pp =>
        cases query with
        | none =>
          cases frag with
          | none => simp [store_qf, store_host_port, mkU, emptyU]
          | some f =>
            have hf : f.isEmpty = false := by
              cases f with
              | nil => exact absurd rfl hfne
              | cons c t => rfl
            simp [store_qf, store_host_port, mkU, emptyU, hf]
        | some q =>
          have hq : q.isEmpty = false := by
            cases q with
            | nil => exact absurd rfl hqne
            | cons c t => rfl
          cases frag with
          | none => simp [store_qf, store_host_port, mkU, emptyU, hq]
          | some f =>
            have hf : f.isEmpty = false := by
              cases f with
              | nil => exact absurd rfl hfne
              | cons c t => rfl
            simp [store_qf, store_host_port, mkU, emptyU, hq, hf]
    | some p =>
      cases port with
      | none =>
        have hpnz : pn = 0 := hpn' rfl
        subst hpnz
        cases query with
        | none =>
          cases frag with
          | none => simp [store_qf, store_host_port, mkU, emptyU]
          | some f =>
            have hf : f.isEmpty = false := by
              cases f with
              | nil => exact absurd rfl hfne
              | cons c t => rfl
            simp [store_qf, store_host_port, mkU, emptyU, hf]
        | some q =>
          have hq : q.isEmpty = false := by
            cases q with
            | nil => exact absurd rfl hqne
            | cons c t => rfl
          cases frag with
          | none => simp [store_qf, store_host_port, mkU, emptyU, hq]
          | some f =>
            have hf : f.isEmpty = false := by
              cases f with
              | nil => exact absurd rfl hfne
              | cons c t => rfl
            simp [store_qf, store_host_port, mkU, emptyU, hq, hf]
      | some pp =>
        cases query with
        | none =>
          cases frag with
          | none => simp [store_qf, store_host_port, mkU, emptyU]
          | some f =>
            have hf : f.isEmpty = false := by
              cases f with
              | nil => exact absurd rfl hfne
              | cons c t => rfl
            simp [store_qf, store_host_port, mkU, emptyU, hf]
        | some q =>
          have hq : q.isEmpty = false := by
            cases q with
            | nil => exact absurd rfl hqne
            | cons c t => rfl
          cases frag with
          | none => simp [store_qf, store_host_port, mkU, emptyU, hq]
          | some f =>
            have hf : f.isEmpty = false := by
              cases f with
              | nil => exact absurd rfl hfne
              | cons c t => rfl
            simp [store_qf, store_host_port, mkU, emptyU, hq, hf]

/-- C1 (amended): for every handle whose nine stored fields satisfy the
parser's field invariants `c1_inv` — builtin non-"file" scheme, separator-free
credentials and host, canonical port digits, re-matchable bracket shape,
slash-headed normalization-stable path, nonempty query/fragment free of the
bytes that would move the splits, and no options — the composite URL get
succeeds and re-parsing its output with default flags yields a handle whose
nine fields are all equal to the original.  (Parsing does not always
establish `c1_inv`: the serializer drops a stored options field, paths that
received a leading slash escape normalization, and a parsed handle can hold
an ill-bracketed host; those round-trip failures are the counterexample.) -/
theorem c1_amended (g sch host path : CStr)
    (user pw port query frag : Option CStr) (pn : Nat)
    (hinv : c1_inv sch user pw host port path query frag pn) :
    ∃ s, curl_url_get (mkU sch user pw host port path query frag pn)
        .CURLUPART_URL flags0 = some (.ok s) ∧
      curl_url g s flags0 =
        (.CURLURLE_OK, some (mkU sch user pw host port path query frag pn)) := by
  refine ⟨join_url sch user pw host port path query frag,
    curl_url_get_join sch host path user pw port query frag pn, ?_⟩
  rw [join_url_assoc]
  have hpu := parseurl_serialized g sch host path user pw port query frag pn
    hinv
  simp only [curl_url, hpu]
  simp [flags0]

/-- C1 witness: the full round trip at the handle of
"http://u:p@h:8080/a?q#f". -/
theorem c1_witness :
    ∃ s, curl_url_get (mkU (s2b "http") (some (s2b "u")) (some (s2b "p"))
        (s2b "h") (some (s2b "8080")) (s2b "/a") (some (s2b "q"))
        (some (s2b "f")) 8080) .CURLUPART_URL flags0 = some (.ok s) ∧
      curl_url [] s flags0 =
        (.CURLURLE_OK, some (mkU (s2b "http") (some (s2b "u"))
          (some (s2b "p")) (s2b "h") (some (s2b "8080")) (s2b "/a")
          (some (s2b "q")) (some (s2b "f")) 8080)) :=
  c1_amended [] (s2b "http") (s2b "h") (s2b "/a") (some (s2b "u"))
    (some (s2b "p")) (some (s2b "8080")) (some (s2b "q")) (some (s2b "f"))
    8080 (by decide)
